import Mathlib

/-!
Verification of the chain-indexer core of the blockstack-core-sidecar
repository.  The definitions below are a shallow embedding of
`src/datastore/postgres-store.ts`: each SQL table is a `List` of row
structures, an `UPDATE ... WHERE p` is a `map` that rewrites the rows
satisfying `p`, a `SELECT ... WHERE p` is a `filter`, and `rowCount` is the
length of the filtered list.  A thrown JS error inside the transaction is an
`Except.error`; since `update` rolls the transaction back on any error, the
erroneous branch discards the working state, which the wrapper `dbUpdate`
makes explicit.  The recursive `restoreOrphanedChain` is embedded with an
explicit fuel parameter (`DbError.outOfFuel` marks exhaustion); termination
theorems show a sufficient fuel bound.
-/

namespace Sidecar

/-- Row of the `blocks` table (columns of `BLOCK_COLUMNS`). -/
structure DbBlock where
  block_hash : String := ""
  index_block_hash : String := ""
  parent_index_block_hash : String := ""
  parent_block_hash : String := ""
  parent_microblock : String := ""
  block_height : Int := 0
  burn_block_time : Int := 0
  canonical : Bool := true
deriving Repr, DecidableEq

/-- Row of the `txs` table (columns of `TX_COLUMNS`). -/
structure DbTx where
  tx_id : String := ""
  tx_index : Int := 0
  index_block_hash : String := ""
  block_hash : String := ""
  block_height : Int := 0
  burn_block_time : Int := 0
  type_id : Int := 0
  status : Int := 0
  canonical : Bool := true
  post_conditions : String := ""
  fee_rate : Int := 0
  sponsored : Bool := false
  sender_address : String := ""
  origin_hash_mode : Int := 0
  token_transfer_recipient_address : Option String := none
  token_transfer_amount : Option Int := none
  token_transfer_memo : Option String := none
  smart_contract_contract_id : Option String := none
  smart_contract_source_code : Option String := none
  contract_call_contract_id : Option String := none
  contract_call_function_name : Option String := none
  contract_call_function_args : Option String := none
  poison_microblock_header_1 : Option String := none
  poison_microblock_header_2 : Option String := none
  coinbase_payload : Option String := none
deriving Repr, DecidableEq

/-- Row of the `stx_events` table. -/
structure DbStxEvent where
  event_index : Int := 0
  tx_id : String := ""
  tx_index : Int := 0
  block_height : Int := 0
  index_block_hash : String := ""
  canonical : Bool := true
  asset_event_type_id : Int := 1
  sender : Option String := none
  recipient : Option String := none
  amount : Int := 0
deriving Repr, DecidableEq

/-- Row of the `ft_events` table. -/
structure DbFtEvent where
  event_index : Int := 0
  tx_id : String := ""
  tx_index : Int := 0
  block_height : Int := 0
  index_block_hash : String := ""
  canonical : Bool := true
  asset_event_type_id : Int := 1
  sender : Option String := none
  recipient : Option String := none
  asset_identifier : String := ""
  amount : Int := 0
deriving Repr, DecidableEq

/-- Row of the `nft_events` table. -/
structure DbNftEvent where
  event_index : Int := 0
  tx_id : String := ""
  tx_index : Int := 0
  block_height : Int := 0
  index_block_hash : String := ""
  canonical : Bool := true
  asset_event_type_id : Int := 1
  sender : Option String := none
  recipient : Option String := none
  asset_identifier : String := ""
  value : String := ""
deriving Repr, DecidableEq

/-- Row of the `contract_logs` table. -/
structure DbSmartContractEvent where
  event_index : Int := 0
  tx_id : String := ""
  tx_index : Int := 0
  block_height : Int := 0
  index_block_hash : String := ""
  canonical : Bool := true
  contract_identifier : String := ""
  topic : String := ""
  value : String := ""
deriving Repr, DecidableEq

/-- Row of the `smart_contracts` table. -/
structure DbSmartContract where
  tx_id : String := ""
  canonical : Bool := true
  contract_id : String := ""
  block_height : Int := 0
  index_block_hash : String := ""
  source_code : String := ""
  abi : String := ""
deriving Repr, DecidableEq

/-- The database state: one list per table touched by the indexer core. -/
structure DbState where
  blocks : List DbBlock := []
  txs : List DbTx := []
  stx_events : List DbStxEvent := []
  ft_events : List DbFtEvent := []
  nft_events : List DbNftEvent := []
  contract_logs : List DbSmartContractEvent := []
  smart_contracts : List DbSmartContract := []
deriving Repr, DecidableEq

/-- The `UpdatedEntities` counter record of `postgres-store.ts`. -/
structure UpdatedEntities where
  blocks : Nat := 0
  txs : Nat := 0
  stxEvents : Nat := 0
  ftEvents : Nat := 0
  nftEvents : Nat := 0
  contractLogs : Nat := 0
  smartContracts : Nat := 0
deriving Repr, DecidableEq

/-- The zeroed counter record `handleReorg` starts from. -/
def UpdatedEntities.zero : UpdatedEntities := {}

/-- Errors thrown inside the ingestion transaction.  `outOfFuel` is an
artifact of the fueled embedding of the recursive `restoreOrphanedChain`;
the remaining constructors correspond one to one to the `throw new Error`
sites of `postgres-store.ts`. -/
inductive DbError where
  /-- fuel exhaustion of the embedding (never reached with sufficient fuel) -/
  | outOfFuel
  /-- `could not find orphaned block by index_hash` -/
  | orphanedBlockNotFound
  /-- `found multiple non-canonical parents for index_hash` -/
  | multipleOrphanedBlocks
  /-- `found more than one non-canonical parent to restore during reorg` -/
  | multipleParentsToRestore
  /-- `DB does not contain a parent block at height ...` (ParentMissing) -/
  | parentBlockNotFound
  /-- `DB contains multiple blocks at height ...` -/
  | multipleParentBlocks
deriving Repr, DecidableEq

/-- Result shape of `getChainTipHeight`. -/
structure ChainTip where
  blockHeight : Int
  blockHash : String
  indexBlockHash : String
deriving Repr, DecidableEq

/-- `getChainTipHeight`: `SELECT block_height, block_hash, index_block_hash
FROM blocks WHERE canonical = true AND block_height = (SELECT
MAX(block_height) FROM blocks)`; falls back to height `0` and the hex string
of an empty buffer (`"0x"`) when no row matches. -/
def getChainTipHeight (s : DbState) : ChainTip :=
  match (s.blocks.map (·.block_height)).max? with
  | none => ⟨0, "0x", "0x"⟩
  | some m =>
    match (s.blocks.filter (fun b => b.canonical && b.block_height == m)).head? with
    | some b => ⟨b.block_height, b.block_hash, b.index_block_hash⟩
    | none => ⟨0, "0x", "0x"⟩

/-- `markEntitiesCanonical`: for each non-block table, `UPDATE ... SET
canonical = $2 WHERE index_block_hash = $1 AND canonical != $2`, adding each
statement's `rowCount` to the corresponding counter. -/
def markEntitiesCanonical (s : DbState) (indexBlockHash : String)
    (canonical : Bool) (u : UpdatedEntities) : DbState × UpdatedEntities :=
  let hitTx := fun (t : DbTx) => t.index_block_hash == indexBlockHash && t.canonical != canonical
  let hitStx := fun (e : DbStxEvent) => e.index_block_hash == indexBlockHash && e.canonical != canonical
  let hitFt := fun (e : DbFtEvent) => e.index_block_hash == indexBlockHash && e.canonical != canonical
  let hitNft := fun (e : DbNftEvent) => e.index_block_hash == indexBlockHash && e.canonical != canonical
  let hitLog := fun (e : DbSmartContractEvent) => e.index_block_hash == indexBlockHash && e.canonical != canonical
  let hitSc := fun (e : DbSmartContract) => e.index_block_hash == indexBlockHash && e.canonical != canonical
  ({ s with
      txs := s.txs.map (fun t => if hitTx t then { t with canonical := canonical } else t)
      stx_events := s.stx_events.map (fun e => if hitStx e then { e with canonical := canonical } else e)
      ft_events := s.ft_events.map (fun e => if hitFt e then { e with canonical := canonical } else e)
      nft_events := s.nft_events.map (fun e => if hitNft e then { e with canonical := canonical } else e)
      contract_logs := s.contract_logs.map (fun e => if hitLog e then { e with canonical := canonical } else e)
      smart_contracts := s.smart_contracts.map (fun e => if hitSc e then { e with canonical := canonical } else e) },
   { u with
      txs := u.txs + (s.txs.filter hitTx).length
      stxEvents := u.stxEvents + (s.stx_events.filter hitStx).length
      ftEvents := u.ftEvents + (s.ft_events.filter hitFt).length
      nftEvents := u.nftEvents + (s.nft_events.filter hitNft).length
      contractLogs := u.contractLogs + (s.contract_logs.filter hitLog).length
      smartContracts := u.smartContracts + (s.smart_contracts.filter hitSc).length })

/-- Predicate of the first statement of `restoreOrphanedChain`:
`index_block_hash = $1 AND canonical = false`. -/
def restoreHit (indexBlockHash : String) (b : DbBlock) : Bool :=
  b.index_block_hash == indexBlockHash && b.canonical == false

/-- Predicate of the second statement of `restoreOrphanedChain`:
`block_height = $1 AND index_block_hash != $2 AND canonical = true`. -/
def orphanHit (height : Int) (indexBlockHash : String) (b : DbBlock) : Bool :=
  b.block_height == height && b.index_block_hash != indexBlockHash && b.canonical == true

/-- Predicate of the parent lookup at the end of `restoreOrphanedChain`:
`block_height = $1 AND index_block_hash = $2 AND canonical = false`. -/
def restoreParentHit (height : Int) (parentHash : String) (b : DbBlock) : Bool :=
  b.block_height == height && b.index_block_hash == parentHash && b.canonical == false

/-- The conditional entity flip after the second statement of
`restoreOrphanedChain`: when the orphaning update returned at least one row,
mark the first returned block's entities non-canonical. -/
def markFirstOrphan (s2 : DbState) (orphaned : List DbBlock)
    (u : UpdatedEntities) : DbState × UpdatedEntities :=
  match orphaned.head? with
  | some ob => markEntitiesCanonical s2 ob.index_block_hash false u
  | none => (s2, u)

/-- Steps of `restoreOrphanedChain` once the named block has been found and
matched exactly once (`b0` is the matched row): restore the named block to
canonical, orphan the now conflicting blocks at the same height and mark the
first one's entities non-canonical, then mark the named block's entities
canonical. -/
def restoreCore (s : DbState) (b0 : DbBlock) (indexBlockHash : String)
    (u : UpdatedEntities) : DbState × UpdatedEntities :=
  let s1 : DbState := { s with
    blocks := s.blocks.map (fun b =>
      if restoreHit indexBlockHash b then { b with canonical := true } else b) }
  let orphaned := s1.blocks.filter (orphanHit b0.block_height indexBlockHash)
  let s2 : DbState := { s1 with
    blocks := s1.blocks.map (fun b =>
      if orphanHit b0.block_height indexBlockHash b then { b with canonical := false } else b) }
  let step3 := markFirstOrphan s2 orphaned u
  markEntitiesCanonical step3.1 indexBlockHash true step3.2

/-- `restoreOrphanedChain`, with explicit fuel for the recursion.  Step by
step: restore the previously orphaned block to canonical (failing when the
`UPDATE ... WHERE index_block_hash = $1 AND canonical = false` affects zero
rows or more than one); run the remaining statements (`restoreCore`);
finally look the parent up at `(block_height - 1, parent_index_block_hash,
canonical = false)` and recurse on it (failing when more than one row
matches). -/
def restoreOrphanedChainFuel :
    Nat → DbState → String → UpdatedEntities → Except DbError (DbState × UpdatedEntities)
  | 0, _, _, _ => .error .outOfFuel
  | fuel + 1, s, indexBlockHash, u =>
    match s.blocks.filter (restoreHit indexBlockHash) with
    | [] => .error .orphanedBlockNotFound
    | _ :: _ :: _ => .error .multipleOrphanedBlocks
    | [b0] =>
      let step4 := restoreCore s b0 indexBlockHash u
      match step4.1.blocks.filter
          (restoreParentHit (b0.block_height - 1) b0.parent_index_block_hash) with
      | [] => .ok step4
      | [p] =>
        restoreOrphanedChainFuel fuel step4.1 p.index_block_hash
          { step4.2 with blocks := step4.2.blocks + 1 }
      | _ :: _ :: _ => .error .multipleParentsToRestore

/-- Fuel bound used by the `dbUpdate` wrapper: one unit per block row plus
one.  Every recursive call restores a distinct block, so this always
suffices. -/
def restoreFuelBound (s : DbState) : Nat := s.blocks.length + 1

/-- `restoreOrphanedChain` with the default fuel. -/
def restoreOrphanedChain (s : DbState) (indexBlockHash : String)
    (u : UpdatedEntities) : Except DbError (DbState × UpdatedEntities) :=
  restoreOrphanedChainFuel (restoreFuelBound s) s indexBlockHash u

/-- Predicate of the parent lookup of `handleReorg`:
`block_height = $1 AND index_block_hash = $2`. -/
def reorgParentHit (height : Int) (parentHash : String) (b : DbBlock) : Bool :=
  b.block_height == height && b.index_block_hash == parentHash

/-- `handleReorg(client, block, chainTipHeight)`: for an incoming block of
height above one, look its parent up by `(block_height - 1,
parent_index_block_hash)`; zero rows is the ParentMissing error and two or
more is fatal; when the parent is non-canonical and the incoming height
exceeds the chain tip, restore the orphaned chain ending at the parent. -/
def handleReorg (fuel : Nat) (s : DbState) (block : DbBlock)
    (chainTipHeight : Int) : Except DbError (DbState × UpdatedEntities) :=
  if block.block_height > 1 then
    match s.blocks.filter (reorgParentHit (block.block_height - 1) block.parent_index_block_hash) with
    | [] => .error .parentBlockNotFound
    | _ :: _ :: _ => .error .multipleParentBlocks
    | [p] =>
      if p.canonical = false ∧ block.block_height > chainTipHeight then
        restoreOrphanedChainFuel fuel s p.index_block_hash
          { UpdatedEntities.zero with blocks := 1 }
      else
        .ok (s, UpdatedEntities.zero)
  else
    .ok (s, UpdatedEntities.zero)

/-- `updateBlock`: `INSERT INTO blocks ... ON CONFLICT (index_block_hash) DO
NOTHING`, returning the affected row count. -/
def updateBlock (blocks : List DbBlock) (block : DbBlock) : List DbBlock × Nat :=
  if blocks.any (fun b => b.index_block_hash == block.index_block_hash) then
    (blocks, 0)
  else
    (blocks ++ [block], 1)

/-- `updateTx`: `INSERT INTO txs ... ON CONFLICT ON CONSTRAINT
unique_tx_id_index_block_hash DO NOTHING`. -/
def updateTx (txs : List DbTx) (tx : DbTx) : List DbTx × Nat :=
  if txs.any (fun t => t.tx_id == tx.tx_id && t.index_block_hash == tx.index_block_hash) then
    (txs, 0)
  else
    (txs ++ [tx], 1)

/-- `updateStxEvent`: plain insert; the row's `index_block_hash` column is
taken from the owning transaction. -/
def updateStxEvent (events : List DbStxEvent) (tx : DbTx) (event : DbStxEvent) : List DbStxEvent :=
  events ++ [{ event with index_block_hash := tx.index_block_hash }]

/-- `updateFtEvent`: plain insert, `index_block_hash` from the transaction. -/
def updateFtEvent (events : List DbFtEvent) (tx : DbTx) (event : DbFtEvent) : List DbFtEvent :=
  events ++ [{ event with index_block_hash := tx.index_block_hash }]

/-- `updateNftEvent`: plain insert, `index_block_hash` from the transaction. -/
def updateNftEvent (events : List DbNftEvent) (tx : DbTx) (event : DbNftEvent) : List DbNftEvent :=
  events ++ [{ event with index_block_hash := tx.index_block_hash }]

/-- `updateSmartContractEvent`: plain insert into `contract_logs`. -/
def updateSmartContractEvent (events : List DbSmartContractEvent) (tx : DbTx)
    (event : DbSmartContractEvent) : List DbSmartContractEvent :=
  events ++ [{ event with index_block_hash := tx.index_block_hash }]

/-- `updateSmartContract`: plain insert into `smart_contracts`. -/
def updateSmartContract (contracts : List DbSmartContract) (tx : DbTx)
    (contract : DbSmartContract) : List DbSmartContract :=
  contracts ++ [{ contract with index_block_hash := tx.index_block_hash }]

/-- One entry of `DataStoreUpdateData.txs`: a transaction with its events. -/
structure DataStoreTxEventData where
  tx : DbTx := {}
  stxEvents : List DbStxEvent := []
  ftEvents : List DbFtEvent := []
  nftEvents : List DbNftEvent := []
  contractLogEvents : List DbSmartContractEvent := []
  smartContracts : List DbSmartContract := []
deriving Repr, DecidableEq

/-- The decoded batch handed to `update`. -/
structure DataStoreUpdateData where
  block : DbBlock := {}
  txs : List DataStoreTxEventData := []
deriving Repr, DecidableEq

/-- The mutation `update` performs on the batch when the incoming block is
not higher than the chain tip: every record's `canonical` flag is cleared. -/
def markDataNonCanonical (d : DataStoreUpdateData) : DataStoreUpdateData :=
  { block := { d.block with canonical := false }
    txs := d.txs.map (fun e =>
      { tx := { e.tx with canonical := false }
        stxEvents := e.stxEvents.map (fun v => { v with canonical := false })
        ftEvents := e.ftEvents.map (fun v => { v with canonical := false })
        nftEvents := e.nftEvents.map (fun v => { v with canonical := false })
        contractLogEvents := e.contractLogEvents.map (fun v => { v with canonical := false })
        smartContracts := e.smartContracts.map (fun v => { v with canonical := false }) }) }

/-- The per-transaction body of the insert loop of `update`: the tx row and
then its stx, ft, nft, contract-log and smart-contract rows. -/
def insertTxData (s : DbState) (e : DataStoreTxEventData) : DbState :=
  { s with
    txs := (updateTx s.txs e.tx).1
    stx_events := e.stxEvents.foldl (fun acc v => updateStxEvent acc e.tx v) s.stx_events
    ft_events := e.ftEvents.foldl (fun acc v => updateFtEvent acc e.tx v) s.ft_events
    nft_events := e.nftEvents.foldl (fun acc v => updateNftEvent acc e.tx v) s.nft_events
    contract_logs := e.contractLogEvents.foldl (fun acc v => updateSmartContractEvent acc e.tx v) s.contract_logs
    smart_contracts := e.smartContracts.foldl (fun acc v => updateSmartContract acc e.tx v) s.smart_contracts }

/-- The insert loop of `update` over all batch entries, in batch order. -/
def insertAllTxData (s : DbState) (entries : List DataStoreTxEventData) : DbState :=
  entries.foldl insertTxData s

/-- A post-commit notification emitted through the event emitter. -/
inductive DbNotification where
  | blockUpdate (b : DbBlock)
  | txUpdate (t : DbTx)
deriving Repr, DecidableEq

/-- The `BEGIN ... COMMIT` body of `update`: read the chain tip, run
`handleReorg`, clear the batch's canonical flags when the block is not
higher than the tip, insert the block and, when the insert affected a row,
the transactions and events; the returned notifications are the ones emitted
right after `COMMIT` (the block first, then one per batch transaction in
batch order). -/
def updateBodyFuel (fuel : Nat) (s : DbState) (data : DataStoreUpdateData) :
    Except DbError (DbState × List DbNotification) :=
  let chainTip := getChainTipHeight s
  match handleReorg fuel s data.block chainTip.blockHeight with
  | .error e => .error e
  | .ok (s1, _) =>
    let d := if data.block.block_height ≤ chainTip.blockHeight then markDataNonCanonical data else data
    let inserted := updateBlock s1.blocks d.block
    let s2 : DbState := { s1 with blocks := inserted.1 }
    let s3 := if inserted.2 ≠ 0 then insertAllTxData s2 d.txs else s2
    .ok (s3, .blockUpdate d.block :: d.txs.map (fun e => .txUpdate e.tx))

/-- `update`: run the transaction body; on success commit the new state and
emit the notifications, on any error roll back (the state before the call is
kept) and surface the error. -/
def dbUpdate (s : DbState) (data : DataStoreUpdateData) :
    DbState × Except DbError (List DbNotification) :=
  match updateBodyFuel (restoreFuelBound s) s data with
  | .ok (s3, ns) => (s3, .ok ns)
  | .error e => (s, .error e)

/-- Result shape of `getStxBalance`. -/
structure StxBalance where
  balance : Int
  totalSent : Int
  totalReceived : Int
deriving Repr, DecidableEq

/-- `getStxBalance(address)`: over canonical `stx_events` rows where the
address is sender or recipient, credit is the sum of amounts received,
debit the sum of amounts sent, and the balance their difference. -/
def getStxBalance (s : DbState) (stxAddress : String) : StxBalance :=
  let transfers := s.stx_events.filter
    (fun e => e.canonical && (e.sender == some stxAddress || e.recipient == some stxAddress))
  let creditTotal := ((transfers.filter (fun e => e.recipient == some stxAddress)).map (·.amount)).sum
  let debitTotal := ((transfers.filter (fun e => e.sender == some stxAddress)).map (·.amount)).sum
  { balance := creditTotal - debitTotal
    totalSent := debitTotal
    totalReceived := creditTotal }

/-! Specification-side definitions.  Each of the following is written from
the words of a spec claim (or its minimally amended form), to be compared
with the corresponding definition translated from the source. -/

/-- The schema invariant enforced by the unique constraint on
`blocks.index_block_hash`: no two block rows share an `index_block_hash`. -/
def blockHashesNodup (s : DbState) : Prop :=
  (s.blocks.map (·.index_block_hash)).Nodup

/-- Claim-side rendering of the amended C1: restore the named block, which
must exist and be non-canonical (failing when it is absent or matched more
than once); orphan any other block at its height that is currently
canonical and mark the first such orphan's entities non-canonical; mark the
named block's entities canonical; then, if a block exists at
`(block_height - 1, parent_index_block_hash)` and is non-canonical, recurse
on that parent. -/
def restoreOrphanedChainSpecFuel :
    Nat → DbState → String → UpdatedEntities → Except DbError (DbState × UpdatedEntities)
  | 0, _, _, _ => .error .outOfFuel
  | fuel + 1, s, h, u =>
    match s.blocks.filter (restoreHit h) with
    | [] => .error .orphanedBlockNotFound
    | _ :: _ :: _ => .error .multipleOrphanedBlocks
    | [b0] =>
      let step4 := restoreCore s b0 h u
      match step4.1.blocks.filter
          (restoreParentHit (b0.block_height - 1) b0.parent_index_block_hash) with
      | [] => .ok step4
      | p :: _ =>
        restoreOrphanedChainSpecFuel fuel step4.1 p.index_block_hash
          { step4.2 with blocks := step4.2.blocks + 1 }

/-- Claim-side value for C6: the maximum `block_height` among canonical
blocks (0 when there is none). -/
def maxCanonicalBlockHeight (s : DbState) : Int :=
  (((s.blocks.filter (·.canonical)).map (·.block_height)).max?).getD 0

/-- Claim-side rendering of the amended C6: the canonical block standing at
the overall maximum `block_height` when one exists; height 0 and the empty
hex string otherwise, even when canonical blocks exist at lower heights. -/
def getChainTipHeightSpec (s : DbState) : ChainTip :=
  match (s.blocks.map (·.block_height)).max? with
  | none => ⟨0, "0x", "0x"⟩
  | some m =>
    match (s.blocks.filter (fun b => b.canonical && b.block_height == m)).head? with
    | some b => ⟨m, b.block_hash, b.index_block_hash⟩
    | none => ⟨0, "0x", "0x"⟩

/-- Fuel witnessing the depth bound claimed by C10: the starting block's
height plus one (one when the first lookup does not match exactly one
block). -/
def restoreHeightFuel (s : DbState) (indexBlockHash : String) : Nat :=
  match s.blocks.filter (restoreHit indexBlockHash) with
  | [b0] => b0.block_height.toNat + 1
  | _ => 1

/-- Pointwise relation between a block row before and after one successful
`restoreOrphanedChain` pass whose first lookup matched a block of height
`hgt` with hash `hh`: keys are untouched, the named non-canonical row comes
out canonical, and a row is orphaned only at or below `hgt` and never at
`(hgt, hh)`. -/
def RestoreRel (hh : String) (hgt : Int) (a c : DbBlock) : Prop :=
  a.index_block_hash = c.index_block_hash
  ∧ a.block_height = c.block_height
  ∧ (a.index_block_hash = hh → a.canonical = false → c.canonical = true)
  ∧ (a.canonical = true → c.canonical = false →
      (a.block_height < hgt ∨ (a.block_height = hgt ∧ a.index_block_hash ≠ hh)))

/-! Concrete fixtures used by counterexamples and witnesses. -/

/-- A store holding a single block that is already canonical. -/
def exCanonicalOnly : DbState :=
  { blocks := [{ block_hash := "0xa", index_block_hash := "A",
                 parent_index_block_hash := "G", block_height := 1, canonical := true }] }

/-- A store whose greatest height is held only by a non-canonical block:
a canonical block at height 1 and a non-canonical one at height 2. -/
def exTipOrphaned : DbState :=
  { blocks := [{ block_hash := "0xa", index_block_hash := "A",
                 parent_index_block_hash := "G", block_height := 1, canonical := true },
               { block_hash := "0xb", index_block_hash := "B",
                 parent_index_block_hash := "A", block_height := 2, canonical := false }] }

/-- A one-transaction batch whose block is the block of `exCanonicalOnly`. -/
def exDupData : DataStoreUpdateData :=
  { block := { block_hash := "0xa", index_block_hash := "A",
               parent_index_block_hash := "G", block_height := 1, canonical := true }
    txs := [{ tx := { tx_id := "t1", tx_index := 0, index_block_hash := "A",
                      block_hash := "0xa", block_height := 1 } }] }

/-- A batch whose two transactions appear with descending `tx_index`. -/
def exUnsortedData : DataStoreUpdateData :=
  { block := { block_hash := "0xa", index_block_hash := "A",
               parent_index_block_hash := "G", block_height := 1, canonical := true }
    txs := [{ tx := { tx_id := "t1", tx_index := 2, index_block_hash := "A",
                      block_hash := "0xa", block_height := 1 } },
            { tx := { tx_id := "t2", tx_index := 1, index_block_hash := "A",
                      block_hash := "0xa", block_height := 1 } }] }

/-- A batch at height 2 whose parent block is nowhere in the store. -/
def exOrphanData : DataStoreUpdateData :=
  { block := { block_hash := "0xb", index_block_hash := "B",
               parent_index_block_hash := "MISSING", block_height := 2, canonical := true }
    txs := [{ tx := { tx_id := "t1", tx_index := 0, index_block_hash := "B",
                      block_hash := "0xb", block_height := 2 } }] }

/-- A store with an orphaned two-block chain G–O1–O2 next to the canonical
chain G–C1, set up so that restoring O2 walks back through O1. -/
def exRestoreState : DbState :=
  { blocks := [{ block_hash := "0xg", index_block_hash := "G",
                 parent_index_block_hash := "", block_height := 1, canonical := true },
               { block_hash := "0xc1", index_block_hash := "C1",
                 parent_index_block_hash := "G", block_height := 2, canonical := true },
               { block_hash := "0xo1", index_block_hash := "O1",
                 parent_index_block_hash := "G", block_height := 2, canonical := false },
               { block_hash := "0xo2", index_block_hash := "O2",
                 parent_index_block_hash := "O1", block_height := 3, canonical := false }]
    txs := [{ tx_id := "tc1", tx_index := 0, index_block_hash := "C1",
              block_hash := "0xc1", block_height := 2, canonical := true }] }

/-- An incoming block of height 4 extending the orphaned chain of
`exRestoreState` through `O2`. -/
def exExtendBlock : DbBlock :=
  { block_hash := "0xn", index_block_hash := "N",
    parent_index_block_hash := "O2", block_height := 4, canonical := true }

/-- A two-block canonical chain G (height 1) - C1 (height 2); its tip is 2. -/
def exSiblingState : DbState :=
  { blocks := [{ block_hash := "0xg", index_block_hash := "G",
                 parent_index_block_hash := "", block_height := 1, canonical := true },
               { block_hash := "0xc1", index_block_hash := "C1",
                 parent_index_block_hash := "G", block_height := 2, canonical := true }] }

/-- A batch whose block is a height-2 sibling of C1 (same parent G). -/
def exSiblingData : DataStoreUpdateData :=
  { block := { block_hash := "0xo1", index_block_hash := "O1",
               parent_index_block_hash := "G", block_height := 2, canonical := true }
    txs := [{ tx := { tx_id := "to1", tx_index := 0, index_block_hash := "O1",
                      block_hash := "0xo1", block_height := 2 } }] }

end Sidecar

namespace Sidecar

/-! Helper lemmas. -/

/-- The head delivered by `head?` is a member of the list. -/
theorem mem_of_headq {α : Type _} {l : List α} {a : α} (h : l.head? = some a) :
    a ∈ l := by
  cases l with
  | nil => simp at h
  | cons x xs =>
    rw [List.head?_cons] at h
    injection h with h
    exact h ▸ List.mem_cons_self x xs

/-- `max?` of a list extended on the right by one element. -/
theorem maxq_append (l : List Int) (x m : Int) (h : l.max? = some m) :
    (l ++ [x]).max? = some (max m x) := by
  induction l generalizing m with
  | nil => simp at h
  | cons a as ih =>
    rw [List.max?_cons] at h
    injection h with h
    rw [List.cons_append, List.max?_cons]
    cases has : as.max? with
    | none =>
      have : as = [] := by
        cases as with
        | nil => rfl
        | cons b bs => rw [List.max?_cons] at has; exact absurd has (by simp)
      subst this
      simp only [List.nil_append, List.max?_cons, List.max?_nil, Option.elim] at *
      rw [← h]
    | some n =>
      rw [ih n has]
      simp only [has, Option.elim] at h ⊢
      rw [← h, max_assoc]

/-- Build a `Forall₂` between a list and its image under a pointwise map. -/
theorem forall₂_map_self {α : Type _} {R : α → α → Prop} (g : α → α) (l : List α)
    (h : ∀ a ∈ l, R a (g a)) : List.Forall₂ R l (l.map g) := by
  induction l with
  | nil => simp
  | cons a t ih =>
    rw [List.map_cons]
    exact List.Forall₂.cons (h a (List.mem_cons_self a t))
      (ih fun b hb => h b (List.mem_cons_of_mem a hb))

/-- Compose two `Forall₂`s, keeping membership of the left element. -/
theorem forall₂_comp_mem {α : Type _} {R1 R2 R3 : α → α → Prop} :
    ∀ {l1 l2 l3 : List α}, List.Forall₂ R1 l1 l2 → List.Forall₂ R2 l2 l3 →
      (∀ a b c, a ∈ l1 → R1 a b → R2 b c → R3 a c) → List.Forall₂ R3 l1 l3 := by
  intro l1 l2 l3 h12 h23 hcomp
  induction h12 generalizing l3 with
  | nil => cases h23; exact List.Forall₂.nil
  | cons hab htail ih =>
    cases h23 with
    | cons hbc h23tail =>
      exact List.Forall₂.cons
        (hcomp _ _ _ (List.mem_cons_self _ _) hab hbc)
        (ih h23tail fun a b c ha => hcomp a b c (List.mem_cons_of_mem _ ha))

/-- Every element on the right of a `Forall₂` is related to a member of the
left list. -/
theorem forall₂_mem_right {α β : Type _} {R : α → β → Prop} :
    ∀ {l1 : List α} {l2 : List β}, List.Forall₂ R l1 l2 → ∀ {c}, c ∈ l2 →
      ∃ a, a ∈ l1 ∧ R a c := by
  intro l1 l2 h
  induction h with
  | nil => intro c hc; simp at hc
  | cons hab htail ih =>
    intro c hc
    rcases List.mem_cons.mp hc with hc | hc
    · exact ⟨_, List.mem_cons_self _ _, hc ▸ hab⟩
    · obtain ⟨a, ha, hr⟩ := ih hc
      exact ⟨a, List.mem_cons_of_mem _ ha, hr⟩

/-- `markEntitiesCanonical` leaves the `blocks` table untouched. -/
theorem markEntities_blocks (s : DbState) (h : String) (c : Bool) (u : UpdatedEntities) :
    (markEntitiesCanonical s h c u).1.blocks = s.blocks := rfl

/-- The per-transaction insert leaves the `blocks` table untouched. -/
theorem insertTxData_blocks (s : DbState) (e : DataStoreTxEventData) :
    (insertTxData s e).blocks = s.blocks := rfl

/-- The insert loop leaves the `blocks` table untouched. -/
theorem insertAll_blocks (entries : List DataStoreTxEventData) (s : DbState) :
    (insertAllTxData s entries).blocks = s.blocks := by
  induction entries generalizing s with
  | nil => rfl
  | cons e es ih => rw [insertAllTxData, List.foldl_cons, ← insertAllTxData, ih, insertTxData_blocks]

end Sidecar

namespace Sidecar

/-! Reduction lemmas for `handleReorg` and `restoreOrphanedChainFuel`. -/

/-- `handleReorg` at height one or below is a no-op. -/
theorem handleReorg_low {fuel : Nat} {s : DbState} {block : DbBlock} {tip : Int}
    (hgt : ¬ block.block_height > 1) :
    handleReorg fuel s block tip = .ok (s, UpdatedEntities.zero) := by
  unfold handleReorg
  rw [if_neg hgt]

/-- `handleReorg` when the parent lookup returns nothing. -/
theorem handleReorg_parent_nil {fuel : Nat} {s : DbState} {block : DbBlock} {tip : Int}
    (hgt : block.block_height > 1)
    (hp : s.blocks.filter (reorgParentHit (block.block_height - 1) block.parent_index_block_hash) = []) :
    handleReorg fuel s block tip = .error .parentBlockNotFound := by
  unfold handleReorg
  rw [if_pos hgt, hp]

/-- `handleReorg` when the parent lookup returns two or more rows. -/
theorem handleReorg_parent_multi {fuel : Nat} {s : DbState} {block : DbBlock} {tip : Int}
    {a b : DbBlock} {t : List DbBlock}
    (hgt : block.block_height > 1)
    (hp : s.blocks.filter (reorgParentHit (block.block_height - 1) block.parent_index_block_hash) = a :: b :: t) :
    handleReorg fuel s block tip = .error .multipleParentBlocks := by
  unfold handleReorg
  rw [if_pos hgt, hp]

/-- `handleReorg` when the parent lookup returns exactly one row. -/
theorem handleReorg_parent_single {fuel : Nat} {s : DbState} {block : DbBlock} {tip : Int}
    {p : DbBlock}
    (hgt : block.block_height > 1)
    (hp : s.blocks.filter (reorgParentHit (block.block_height - 1) block.parent_index_block_hash) = [p]) :
    handleReorg fuel s block tip =
      if p.canonical = false ∧ block.block_height > tip then
        restoreOrphanedChainFuel fuel s p.index_block_hash
          { UpdatedEntities.zero with blocks := 1 }
      else
        .ok (s, UpdatedEntities.zero) := by
  unfold handleReorg
  rw [if_pos hgt, hp]

/-- `restoreOrphanedChainFuel` when the named block lookup returns nothing. -/
theorem restore_succ_nil {fuel : Nat} {s : DbState} {hh : String} {u : UpdatedEntities}
    (h : s.blocks.filter (restoreHit hh) = []) :
    restoreOrphanedChainFuel (fuel + 1) s hh u = .error .orphanedBlockNotFound := by
  rw [restoreOrphanedChainFuel, h]

/-- `restoreOrphanedChainFuel` when the named block lookup returns two or
more rows. -/
theorem restore_succ_multi {fuel : Nat} {s : DbState} {hh : String} {u : UpdatedEntities}
    {a b : DbBlock} {t : List DbBlock}
    (h : s.blocks.filter (restoreHit hh) = a :: b :: t) :
    restoreOrphanedChainFuel (fuel + 1) s hh u = .error .multipleOrphanedBlocks := by
  rw [restoreOrphanedChainFuel, h]

/-- `restoreOrphanedChainFuel` when the named block lookup matches exactly
one row. -/
theorem restore_succ_single {fuel : Nat} {s : DbState} {hh : String} {u : UpdatedEntities}
    {b0 : DbBlock}
    (h : s.blocks.filter (restoreHit hh) = [b0]) :
    restoreOrphanedChainFuel (fuel + 1) s hh u =
      match (restoreCore s b0 hh u).1.blocks.filter
          (restoreParentHit (b0.block_height - 1) b0.parent_index_block_hash) with
      | [] => .ok (restoreCore s b0 hh u)
      | [p] =>
        restoreOrphanedChainFuel fuel (restoreCore s b0 hh u).1 p.index_block_hash
          { (restoreCore s b0 hh u).2 with blocks := (restoreCore s b0 hh u).2.blocks + 1 }
      | _ :: _ :: _ => .error .multipleParentsToRestore := by
  rw [restoreOrphanedChainFuel, h]

end Sidecar

namespace Sidecar

/-- C1 counterexample. -/
theorem C1_counterexample :
    restoreOrphanedChain exCanonicalOnly "A" UpdatedEntities.zero =
        .error .orphanedBlockNotFound ∧
      exCanonicalOnly.blocks.countP (fun b => b.index_block_hash == "A") = 1 :=
  ⟨rfl, rfl⟩

/-- C2. -/
theorem C2_handleReorg_cases (fuel : Nat) (s : DbState) (block : DbBlock)
    (tip : Int) (hgt : block.block_height > 1) :
    (s.blocks.filter (reorgParentHit (block.block_height - 1) block.parent_index_block_hash) = [] →
      handleReorg fuel s block tip = .error .parentBlockNotFound)
    ∧ (2 ≤ (s.blocks.filter (reorgParentHit (block.block_height - 1) block.parent_index_block_hash)).length →
      handleReorg fuel s block tip = .error .multipleParentBlocks)
    ∧ (∀ p, s.blocks.filter (reorgParentHit (block.block_height - 1) block.parent_index_block_hash) = [p] →
        (p.canonical = true → handleReorg fuel s block tip = .ok (s, UpdatedEntities.zero))
        ∧ (p.canonical = false → tip < block.block_height →
            handleReorg fuel s block tip =
              restoreOrphanedChainFuel fuel s p.index_block_hash
                { UpdatedEntities.zero with blocks := 1 })
        ∧ (p.canonical = false → block.block_height ≤ tip →
            handleReorg fuel s block tip = .ok (s, UpdatedEntities.zero))) := by
  refine ⟨fun h => handleReorg_parent_nil hgt h, fun h => ?_, fun p hp => ?_⟩
  · rcases e : s.blocks.filter (reorgParentHit (block.block_height - 1) block.parent_index_block_hash) with _ | ⟨a, _ | ⟨b, t⟩⟩
    · rw [e] at h; simp at h
    · rw [e] at h; simp at h
    · exact handleReorg_parent_multi hgt e
  · rw [handleReorg_parent_single hgt hp]
    refine ⟨fun hc => ?_, fun hc hlt => ?_, fun hc hle => ?_⟩
    · rw [if_neg]; rintro ⟨h1, _⟩; rw [hc] at h1; exact absurd h1 (by decide)
    · rw [if_pos ⟨hc, hlt⟩]
    · rw [if_neg]; rintro ⟨_, h2⟩; omega

/-- C2 witness. -/
theorem C2_handleReorg_cases_witness :
    exExtendBlock.block_height > 1 ∧
      handleReorg 5 exRestoreState exExtendBlock 2 =
        restoreOrphanedChainFuel 5 exRestoreState "O2"
          { UpdatedEntities.zero with blocks := 1 } := by
  refine ⟨by decide, ?_⟩
  have h := (C2_handleReorg_cases 5 exRestoreState exExtendBlock 2 (by decide)).2.2
    { block_hash := "0xo2", index_block_hash := "O2",
      parent_index_block_hash := "O1", block_height := 3, canonical := false }
    (by decide)
  exact h.2.1 rfl (by decide)


/-- C5. -/
theorem C5_getStxBalance (s : DbState) (A : String) :
    getStxBalance s A =
      { balance :=
          ((s.stx_events.filter (fun e => e.canonical && e.recipient == some A)).map (·.amount)).sum
            - ((s.stx_events.filter (fun e => e.canonical && e.sender == some A)).map (·.amount)).sum
        totalSent :=
          ((s.stx_events.filter (fun e => e.canonical && e.sender == some A)).map (·.amount)).sum
        totalReceived :=
          ((s.stx_events.filter (fun e => e.canonical && e.recipient == some A)).map (·.amount)).sum } := by
  have hr :
      (s.stx_events.filter
          (fun e => e.canonical && (e.sender == some A || e.recipient == some A))).filter
          (fun e => e.recipient == some A)
        = s.stx_events.filter (fun e => e.canonical && e.recipient == some A) := by
    rw [List.filter_filter]
    apply List.filter_congr
    intro e _
    cases hc : e.canonical <;> cases hs : (e.sender == some A) <;>
      cases hrp : (e.recipient == some A) <;> simp [hc, hs, hrp]
  have hs :
      (s.stx_events.filter
          (fun e => e.canonical && (e.sender == some A || e.recipient == some A))).filter
          (fun e => e.sender == some A)
        = s.stx_events.filter (fun e => e.canonical && e.sender == some A) := by
    rw [List.filter_filter]
    apply List.filter_congr
    intro e _
    cases hc : e.canonical <;> cases hsn : (e.sender == some A) <;>
      cases hrp : (e.recipient == some A) <;> simp [hc, hsn, hrp]
  simp only [getStxBalance]
  rw [hr, hs]

/-- C6 counterexample. -/
theorem C6_counterexample :
    (getChainTipHeight exTipOrphaned).blockHeight = 0 ∧
      maxCanonicalBlockHeight exTipOrphaned = 1 :=
  ⟨rfl, rfl⟩

/-- C6 amended. -/
theorem C6_getChainTipHeight_amended (s : DbState) :
    getChainTipHeight s = getChainTipHeightSpec s := by
  unfold getChainTipHeight getChainTipHeightSpec
  cases hm : (s.blocks.map (·.block_height)).max? with
  | none => rfl
  | some m =>
    dsimp only
    cases hh : (s.blocks.filter (fun b => b.canonical && b.block_height == m)).head? with
    | none => rfl
    | some b =>
      have hb := List.of_mem_filter (mem_of_headq hh)
      have hbm : b.block_height = m := by
        simp only [Bool.and_eq_true, beq_iff_eq] at hb
        exact hb.2
      dsimp only
      rw [hbm]

/-- C9. -/
theorem C9_update_rollback (s : DbState) (d : DataStoreUpdateData) (e : DbError)
    (h : (dbUpdate s d).2 = .error e) : (dbUpdate s d).1 = s := by
  unfold dbUpdate at h ⊢
  cases hb : updateBodyFuel (restoreFuelBound s) s d with
  | ok v =>
    obtain ⟨s3, ns⟩ := v
    rw [hb] at h
    simp at h
  | error e2 => rfl

/-- C9 witness. -/
theorem C9_update_rollback_witness :
    (dbUpdate {} exOrphanData).2 = .error .parentBlockNotFound ∧
      (dbUpdate {} exOrphanData).1 = {} :=
  ⟨rfl, C9_update_rollback {} exOrphanData .parentBlockNotFound rfl⟩

/-- C7 counterexample. -/
theorem C7_counterexample :
    (dbUpdate exCanonicalOnly exDupData).1 = exCanonicalOnly ∧
      (dbUpdate exCanonicalOnly exDupData).2 =
        .ok [.blockUpdate { exDupData.block with canonical := false },
             .txUpdate { (exDupData.txs.getD 0 {}).tx with canonical := false }] :=
  ⟨rfl, rfl⟩

/-- C8 counterexample. -/
theorem C8_counterexample :
    (dbUpdate {} exUnsortedData).2 =
        .ok [.blockUpdate exUnsortedData.block,
             .txUpdate (exUnsortedData.txs.getD 0 {}).tx,
             .txUpdate (exUnsortedData.txs.getD 1 {}).tx] ∧
      (exUnsortedData.txs.getD 0 {}).tx.tx_index = 2 ∧
      (exUnsortedData.txs.getD 1 {}).tx.tx_index = 1 :=
  ⟨rfl, rfl, rfl⟩

end Sidecar

namespace Sidecar

/-- The stx-event insert loop of one entry appends the mapped rows. -/
theorem foldl_updateStxEvent (evs : List DbStxEvent) (acc : List DbStxEvent) (tx : DbTx) :
    evs.foldl (fun a v => updateStxEvent a tx v) acc =
      acc ++ evs.map (fun v => { v with index_block_hash := tx.index_block_hash }) := by
  induction evs generalizing acc with
  | nil => simp
  | cons v vs ih =>
    rw [List.foldl_cons, ih]
    simp [updateStxEvent, List.append_assoc]

theorem foldl_updateFtEvent (evs : List DbFtEvent) (acc : List DbFtEvent) (tx : DbTx) :
    evs.foldl (fun a v => updateFtEvent a tx v) acc =
      acc ++ evs.map (fun v => { v with index_block_hash := tx.index_block_hash }) := by
  induction evs generalizing acc with
  | nil => simp
  | cons v vs ih =>
    rw [List.foldl_cons, ih]
    simp [updateFtEvent, List.append_assoc]

theorem foldl_updateNftEvent (evs : List DbNftEvent) (acc : List DbNftEvent) (tx : DbTx) :
    evs.foldl (fun a v => updateNftEvent a tx v) acc =
      acc ++ evs.map (fun v => { v with index_block_hash := tx.index_block_hash }) := by
  induction evs generalizing acc with
  | nil => simp
  | cons v vs ih =>
    rw [List.foldl_cons, ih]
    simp [updateNftEvent, List.append_assoc]

theorem foldl_updateContractLog (evs : List DbSmartContractEvent) (acc : List DbSmartContractEvent) (tx : DbTx) :
    evs.foldl (fun a v => updateSmartContractEvent a tx v) acc =
      acc ++ evs.map (fun v => { v with index_block_hash := tx.index_block_hash }) := by
  induction evs generalizing acc with
  | nil => simp
  | cons v vs ih =>
    rw [List.foldl_cons, ih]
    simp [updateSmartContractEvent, List.append_assoc]

theorem foldl_updateSmartContract (evs : List DbSmartContract) (acc : List DbSmartContract) (tx : DbTx) :
    evs.foldl (fun a v => updateSmartContract a tx v) acc =
      acc ++ evs.map (fun v => { v with index_block_hash := tx.index_block_hash }) := by
  induction evs generalizing acc with
  | nil => simp
  | cons v vs ih =>
    rw [List.foldl_cons, ih]
    simp [updateSmartContract, List.append_assoc]

/-- Every entry of a batch passed through `markDataNonCanonical` carries only
cleared canonical flags. -/
theorem markData_entry_flags (d : DataStoreUpdateData) :
    ∀ e ∈ (markDataNonCanonical d).txs,
      e.tx.canonical = false
      ∧ (∀ v ∈ e.stxEvents, v.canonical = false)
      ∧ (∀ v ∈ e.ftEvents, v.canonical = false)
      ∧ (∀ v ∈ e.nftEvents, v.canonical = false)
      ∧ (∀ v ∈ e.contractLogEvents, v.canonical = false)
      ∧ (∀ v ∈ e.smartContracts, v.canonical = false) := by
  intro e he
  rw [markDataNonCanonical] at he
  simp only [List.mem_map] at he
  obtain ⟨e0, _, rfl⟩ := he
  refine ⟨rfl, ?_, ?_, ?_, ?_, ?_⟩ <;>
    · intro v hv
      simp only [List.mem_map] at hv
      obtain ⟨v0, _, rfl⟩ := hv
      rfl

/-- The tx insert either appends the row or, on conflict, appends nothing. -/
theorem updateTx_append (txs : List DbTx) (tx : DbTx) :
    ∃ r, (updateTx txs tx).1 = txs ++ r ∧ ∀ t ∈ r, t = tx := by
  unfold updateTx
  by_cases hdup : txs.any (fun t => t.tx_id == tx.tx_id && t.index_block_hash == tx.index_block_hash)
  · rw [if_pos hdup]
    exact ⟨[], by simp, by simp⟩
  · rw [if_neg hdup]
    refine ⟨[tx], rfl, ?_⟩
    intro t ht
    simpa using ht

/-- The insert loop appends rows with cleared flags whenever the batch
entries carry only cleared flags. -/
theorem insertAll_append_flags (entries : List DataStoreTxEventData) (s : DbState)
    (hflag : ∀ e ∈ entries,
      e.tx.canonical = false
      ∧ (∀ v ∈ e.stxEvents, v.canonical = false)
      ∧ (∀ v ∈ e.ftEvents, v.canonical = false)
      ∧ (∀ v ∈ e.nftEvents, v.canonical = false)
      ∧ (∀ v ∈ e.contractLogEvents, v.canonical = false)
      ∧ (∀ v ∈ e.smartContracts, v.canonical = false)) :
    (∃ r, (insertAllTxData s entries).txs = s.txs ++ r ∧ ∀ t ∈ r, t.canonical = false)
    ∧ (∃ r, (insertAllTxData s entries).stx_events = s.stx_events ++ r ∧ ∀ v ∈ r, v.canonical = false)
    ∧ (∃ r, (insertAllTxData s entries).ft_events = s.ft_events ++ r ∧ ∀ v ∈ r, v.canonical = false)
    ∧ (∃ r, (insertAllTxData s entries).nft_events = s.nft_events ++ r ∧ ∀ v ∈ r, v.canonical = false)
    ∧ (∃ r, (insertAllTxData s entries).contract_logs = s.contract_logs ++ r ∧ ∀ v ∈ r, v.canonical = false)
    ∧ (∃ r, (insertAllTxData s entries).smart_contracts = s.smart_contracts ++ r ∧ ∀ v ∈ r, v.canonical = false) := by
  induction entries generalizing s with
  | nil =>
    exact ⟨⟨[], by simp [insertAllTxData], by simp⟩, ⟨[], by simp [insertAllTxData], by simp⟩,
      ⟨[], by simp [insertAllTxData], by simp⟩, ⟨[], by simp [insertAllTxData], by simp⟩,
      ⟨[], by simp [insertAllTxData], by simp⟩, ⟨[], by simp [insertAllTxData], by simp⟩⟩
  | cons e es ih =>
    have he := hflag e (List.mem_cons_self e es)
    have hes : ∀ x ∈ es, _ := fun x hx => hflag x (List.mem_cons_of_mem e hx)
    have hstep : insertAllTxData s (e :: es) = insertAllTxData (insertTxData s e) es := by
      rw [insertAllTxData, List.foldl_cons, ← insertAllTxData]
    rw [hstep]
    obtain ⟨⟨rt, ht, hft⟩, ⟨rs, hs, hfs⟩, ⟨rf, hf, hff⟩, ⟨rn, hn, hfn⟩, ⟨rl, hl, hfl⟩, ⟨rc, hc, hfc⟩⟩ := ih (insertTxData s e) hes
    refine ⟨?_, ?_, ?_, ?_, ?_, ?_⟩
    · obtain ⟨r0, hr0, hr0f⟩ := updateTx_append s.txs e.tx
      refine ⟨r0 ++ rt, ?_, ?_⟩
      · rw [ht, show (insertTxData s e).txs = (updateTx s.txs e.tx).1 from rfl, hr0,
          List.append_assoc]
      · intro t htm
        rcases List.mem_append.mp htm with h | h
        · rw [hr0f t h]; exact he.1
        · exact hft t h
    · refine ⟨e.stxEvents.map (fun v => { v with index_block_hash := e.tx.index_block_hash }) ++ rs, ?_, ?_⟩
      · rw [hs, show (insertTxData s e).stx_events =
            e.stxEvents.foldl (fun a v => updateStxEvent a e.tx v) s.stx_events from rfl,
          foldl_updateStxEvent, List.append_assoc]
      · intro v hvm
        rcases List.mem_append.mp hvm with h | h
        · obtain ⟨v0, hv0, rfl⟩ := List.mem_map.mp h
          exact he.2.1 v0 hv0
        · exact hfs v h
    · refine ⟨e.ftEvents.map (fun v => { v with index_block_hash := e.tx.index_block_hash }) ++ rf, ?_, ?_⟩
      · rw [hf, show (insertTxData s e).ft_events =
            e.ftEvents.foldl (fun a v => updateFtEvent a e.tx v) s.ft_events from rfl,
          foldl_updateFtEvent, List.append_assoc]
      · intro v hvm
        rcases List.mem_append.mp hvm with h | h
        · obtain ⟨v0, hv0, rfl⟩ := List.mem_map.mp h
          exact he.2.2.1 v0 hv0
        · exact hff v h
    · refine ⟨e.nftEvents.map (fun v => { v with index_block_hash := e.tx.index_block_hash }) ++ rn, ?_, ?_⟩
      · rw [hn, show (insertTxData s e).nft_events =
            e.nftEvents.foldl (fun a v => updateNftEvent a e.tx v) s.nft_events from rfl,
          foldl_updateNftEvent, List.append_assoc]
      · intro v hvm
        rcases List.mem_append.mp hvm with h | h
        · obtain ⟨v0, hv0, rfl⟩ := List.mem_map.mp h
          exact he.2.2.2.1 v0 hv0
        · exact hfn v h
    · refine ⟨e.contractLogEvents.map (fun v => { v with index_block_hash := e.tx.index_block_hash }) ++ rl, ?_, ?_⟩
      · rw [hl, show (insertTxData s e).contract_logs =
            e.contractLogEvents.foldl (fun a v => updateSmartContractEvent a e.tx v) s.contract_logs from rfl,
          foldl_updateContractLog, List.append_assoc]
      · intro v hvm
        rcases List.mem_append.mp hvm with h | h
        · obtain ⟨v0, hv0, rfl⟩ := List.mem_map.mp h
          exact he.2.2.2.2.1 v0 hv0
        · exact hfl v h
    · refine ⟨e.smartContracts.map (fun v => { v with index_block_hash := e.tx.index_block_hash }) ++ rc, ?_, ?_⟩
      · rw [hc, show (insertTxData s e).smart_contracts =
            e.smartContracts.foldl (fun a v => updateSmartContract a e.tx v) s.smart_contracts from rfl,
          foldl_updateSmartContract, List.append_assoc]
      · intro v hvm
        rcases List.mem_append.mp hvm with h | h
        · obtain ⟨v0, hv0, rfl⟩ := List.mem_map.mp h
          exact he.2.2.2.2.2 v0 hv0
        · exact hfc v h


/-- When the incoming block does not exceed the chain tip, a successful
`handleReorg` leaves the state unchanged. -/
theorem handleReorg_ok_of_le {fuel : Nat} {s : DbState} {block : DbBlock} {tip : Int}
    (hle : ¬ block.block_height > tip) {s1 : DbState} {u : UpdatedEntities}
    (h : handleReorg fuel s block tip = .ok (s1, u)) : s1 = s := by
  by_cases hgt : block.block_height > 1
  · rcases e : s.blocks.filter (reorgParentHit (block.block_height - 1) block.parent_index_block_hash) with _ | ⟨p, _ | ⟨b, t⟩⟩
    · rw [handleReorg_parent_nil hgt e] at h; cases h
    · rw [handleReorg_parent_single hgt e] at h
      rw [if_neg (fun hc => hle hc.2)] at h
      injection h with h
      injection h with h1 h2
      exact h1.symm
    · rw [handleReorg_parent_multi hgt e] at h; cases h
  · rw [handleReorg_low hgt] at h
    injection h with h
    injection h with h1 h2
    exact h1.symm

/-- C4: an incoming batch at or below the chain tip height is stored
entirely with `canonical = false`, appended after the unchanged existing
rows (so it never displaces the canonical block at its height). -/
theorem C4_sibling_stored_non_canonical (s : DbState) (d : DataStoreUpdateData)
    (s2 : DbState) (ns : List DbNotification)
    (hle : d.block.block_height ≤ (getChainTipHeight s).blockHeight)
    (hok : dbUpdate s d = (s2, .ok ns)) :
    (∃ r, s2.blocks = s.blocks ++ r ∧ ∀ b ∈ r, b.canonical = false)
    ∧ (∃ r, s2.txs = s.txs ++ r ∧ ∀ t ∈ r, t.canonical = false)
    ∧ (∃ r, s2.stx_events = s.stx_events ++ r ∧ ∀ v ∈ r, v.canonical = false)
    ∧ (∃ r, s2.ft_events = s.ft_events ++ r ∧ ∀ v ∈ r, v.canonical = false)
    ∧ (∃ r, s2.nft_events = s.nft_events ++ r ∧ ∀ v ∈ r, v.canonical = false)
    ∧ (∃ r, s2.contract_logs = s.contract_logs ++ r ∧ ∀ v ∈ r, v.canonical = false)
    ∧ (∃ r, s2.smart_contracts = s.smart_contracts ++ r ∧ ∀ v ∈ r, v.canonical = false) := by
  unfold dbUpdate at hok
  cases hb : updateBodyFuel (restoreFuelBound s) s d with
  | error e => rw [hb] at hok; cases hok
  | ok v =>
    obtain ⟨s3, ns0⟩ := v
    rw [hb] at hok
    injection hok with hok1 hok2
    injection hok2 with hok2
    simp only [updateBodyFuel] at hb
    cases hr : handleReorg (restoreFuelBound s) s d.block (getChainTipHeight s).blockHeight with
    | error e => rw [hr] at hb; cases hb
    | ok w =>
      obtain ⟨s1, u1⟩ := w
      have hs1 : s1 = s := handleReorg_ok_of_le (by omega) hr
      rw [hr] at hb
      rw [hs1] at hb
      dsimp only at hb
      rw [if_pos hle] at hb
      by_cases hdup : s.blocks.any
          (fun b => b.index_block_hash == (markDataNonCanonical d).block.index_block_hash)
      · rw [show updateBlock s.blocks (markDataNonCanonical d).block = (s.blocks, 0) from by
          rw [updateBlock, if_pos hdup]] at hb
        rw [if_neg (show ¬(((s.blocks, 0) : List DbBlock × Nat).2 ≠ 0) from by simp)] at hb
        injection hb with hb1
        injection hb1 with hbs hbn
        have hs2 : s2 = s := by rw [← hok1]; exact hbs.symm
        rw [hs2]
        exact ⟨⟨[], by simp, by simp⟩, ⟨[], by simp, by simp⟩, ⟨[], by simp, by simp⟩,
          ⟨[], by simp, by simp⟩, ⟨[], by simp, by simp⟩, ⟨[], by simp, by simp⟩,
          ⟨[], by simp, by simp⟩⟩
      · rw [show updateBlock s.blocks (markDataNonCanonical d).block =
              (s.blocks ++ [(markDataNonCanonical d).block], 1) from by
          rw [updateBlock, if_neg hdup]] at hb
        rw [if_pos (show ((s.blocks ++ [(markDataNonCanonical d).block], 1) : List DbBlock × Nat).2 ≠ 0 from by simp)] at hb
        injection hb with hb1
        injection hb1 with hbs hbn
        have hs2 : s2 = insertAllTxData
            { s with blocks := s.blocks ++ [(markDataNonCanonical d).block] }
            (markDataNonCanonical d).txs := by rw [← hok1]; exact hbs.symm
        obtain ⟨⟨rt, ht, hft⟩, ⟨rs, hsx, hfs⟩, ⟨rf, hf, hff⟩, ⟨rn, hn, hfn⟩, ⟨rl, hl, hfl⟩, ⟨rc, hc, hfc⟩⟩ :=
          insertAll_append_flags (markDataNonCanonical d).txs
            { s with blocks := s.blocks ++ [(markDataNonCanonical d).block] }
            (markData_entry_flags d)
        rw [hs2]
        refine ⟨⟨[(markDataNonCanonical d).block], ?_, ?_⟩, ⟨rt, ht, hft⟩, ⟨rs, hsx, hfs⟩,
          ⟨rf, hf, hff⟩, ⟨rn, hn, hfn⟩, ⟨rl, hl, hfl⟩, ⟨rc, hc, hfc⟩⟩
        · rw [insertAll_blocks]
        · intro b hbm
          rw [List.mem_singleton] at hbm
          rw [hbm]
          rfl

end Sidecar

namespace Sidecar

/-- `markEntitiesCanonical` preserves all table lengths. -/
theorem markEntities_lengths (s : DbState) (h : String) (c : Bool) (u : UpdatedEntities) :
    (markEntitiesCanonical s h c u).1.txs.length = s.txs.length
    ∧ (markEntitiesCanonical s h c u).1.stx_events.length = s.stx_events.length
    ∧ (markEntitiesCanonical s h c u).1.ft_events.length = s.ft_events.length
    ∧ (markEntitiesCanonical s h c u).1.nft_events.length = s.nft_events.length
    ∧ (markEntitiesCanonical s h c u).1.contract_logs.length = s.contract_logs.length
    ∧ (markEntitiesCanonical s h c u).1.smart_contracts.length = s.smart_contracts.length := by
  refine ⟨?_, ?_, ?_, ?_, ?_, ?_⟩ <;> simp [markEntitiesCanonical]

/-- `markFirstOrphan` leaves the block table unchanged and preserves all
table lengths. -/
theorem markFirstOrphan_shape (s2 : DbState) (orphaned : List DbBlock) (u : UpdatedEntities) :
    (markFirstOrphan s2 orphaned u).1.blocks = s2.blocks
    ∧ (markFirstOrphan s2 orphaned u).1.txs.length = s2.txs.length
    ∧ (markFirstOrphan s2 orphaned u).1.stx_events.length = s2.stx_events.length
    ∧ (markFirstOrphan s2 orphaned u).1.ft_events.length = s2.ft_events.length
    ∧ (markFirstOrphan s2 orphaned u).1.nft_events.length = s2.nft_events.length
    ∧ (markFirstOrphan s2 orphaned u).1.contract_logs.length = s2.contract_logs.length
    ∧ (markFirstOrphan s2 orphaned u).1.smart_contracts.length = s2.smart_contracts.length := by
  unfold markFirstOrphan
  cases orphaned.head? with
  | none => exact ⟨rfl, rfl, rfl, rfl, rfl, rfl, rfl⟩
  | some ob =>
    exact ⟨markEntities_blocks _ _ _ _, (markEntities_lengths _ _ _ _).1,
      (markEntities_lengths _ _ _ _).2.1, (markEntities_lengths _ _ _ _).2.2.1,
      (markEntities_lengths _ _ _ _).2.2.2.1, (markEntities_lengths _ _ _ _).2.2.2.2.1,
      (markEntities_lengths _ _ _ _).2.2.2.2.2⟩

/-- `restoreCore` preserves the block-hash column and all table lengths. -/
theorem restoreCore_shape (s : DbState) (b0 : DbBlock) (hh : String) (u : UpdatedEntities) :
    (restoreCore s b0 hh u).1.blocks.map (·.index_block_hash) = s.blocks.map (·.index_block_hash)
    ∧ (restoreCore s b0 hh u).1.txs.length = s.txs.length
    ∧ (restoreCore s b0 hh u).1.stx_events.length = s.stx_events.length
    ∧ (restoreCore s b0 hh u).1.ft_events.length = s.ft_events.length
    ∧ (restoreCore s b0 hh u).1.nft_events.length = s.nft_events.length
    ∧ (restoreCore s b0 hh u).1.contract_logs.length = s.contract_logs.length
    ∧ (restoreCore s b0 hh u).1.smart_contracts.length = s.smart_contracts.length := by
  unfold restoreCore
  dsimp only
  refine ⟨?_, ?_, ?_, ?_, ?_, ?_, ?_⟩
  · rw [markEntities_blocks, (markFirstOrphan_shape _ _ _).1]
    dsimp only
    rw [List.map_map, List.map_map]
    apply List.map_congr_left
    intro b _
    simp only [Function.comp]
    by_cases h1 : restoreHit hh b = true
    · rw [if_pos h1]
      by_cases h2 : orphanHit b0.block_height hh { b with canonical := true } = true
      · rw [if_pos h2]
      · rw [if_neg h2]
    · rw [if_neg h1]
      by_cases h2 : orphanHit b0.block_height hh b = true
      · rw [if_pos h2]
      · rw [if_neg h2]
  · rw [(markEntities_lengths _ _ _ _).1, (markFirstOrphan_shape _ _ _).2.1]
  · rw [(markEntities_lengths _ _ _ _).2.1, (markFirstOrphan_shape _ _ _).2.2.1]
  · rw [(markEntities_lengths _ _ _ _).2.2.1, (markFirstOrphan_shape _ _ _).2.2.2.1]
  · rw [(markEntities_lengths _ _ _ _).2.2.2.1, (markFirstOrphan_shape _ _ _).2.2.2.2.1]
  · rw [(markEntities_lengths _ _ _ _).2.2.2.2.1, (markFirstOrphan_shape _ _ _).2.2.2.2.2.1]
  · rw [(markEntities_lengths _ _ _ _).2.2.2.2.2, (markFirstOrphan_shape _ _ _).2.2.2.2.2.2]


/-- A successful `restoreOrphanedChainFuel` preserves the block-hash column
and all table lengths: it only toggles canonical flags. -/
theorem restore_ok_shape :
    ∀ (fuel : Nat) (s : DbState) (hh : String) (u : UpdatedEntities)
      (s2 : DbState) (u2 : UpdatedEntities),
      restoreOrphanedChainFuel fuel s hh u = .ok (s2, u2) →
      s2.blocks.map (·.index_block_hash) = s.blocks.map (·.index_block_hash)
      ∧ s2.txs.length = s.txs.length
      ∧ s2.stx_events.length = s.stx_events.length
      ∧ s2.ft_events.length = s.ft_events.length
      ∧ s2.nft_events.length = s.nft_events.length
      ∧ s2.contract_logs.length = s.contract_logs.length
      ∧ s2.smart_contracts.length = s.smart_contracts.length := by
  intro fuel
  induction fuel with
  | zero => intro s hh u s2 u2 h; cases h
  | succ f ih =>
    intro s hh u s2 u2 h
    rcases hflt : s.blocks.filter (restoreHit hh) with _ | ⟨b0, _ | ⟨b1, t⟩⟩
    · rw [restore_succ_nil hflt] at h; cases h
    · rw [restore_succ_single hflt] at h
      rcases hp : (restoreCore s b0 hh u).1.blocks.filter
          (restoreParentHit (b0.block_height - 1) b0.parent_index_block_hash) with _ | ⟨p, _ | ⟨p1, t1⟩⟩
      · rw [hp] at h
        injection h with h
        injection h with h1 h2
        rw [← h1]
        exact restoreCore_shape s b0 hh u
      · rw [hp] at h
        have hrec := ih (restoreCore s b0 hh u).1 p.index_block_hash
          { (restoreCore s b0 hh u).2 with blocks := (restoreCore s b0 hh u).2.blocks + 1 }
          s2 u2 h
        have hcore := restoreCore_shape s b0 hh u
        exact ⟨hrec.1.trans hcore.1, hrec.2.1.trans hcore.2.1,
          hrec.2.2.1.trans hcore.2.2.1, hrec.2.2.2.1.trans hcore.2.2.2.1,
          hrec.2.2.2.2.1.trans hcore.2.2.2.2.1, hrec.2.2.2.2.2.1.trans hcore.2.2.2.2.2.1,
          hrec.2.2.2.2.2.2.trans hcore.2.2.2.2.2.2⟩
      · rw [hp] at h; cases h
    · rw [restore_succ_multi hflt] at h; cases h

/-- A successful `handleReorg` preserves the block-hash column and all table
lengths. -/
theorem handleReorg_ok_shape {fuel : Nat} {s : DbState} {block : DbBlock} {tip : Int}
    {s1 : DbState} {u1 : UpdatedEntities}
    (h : handleReorg fuel s block tip = .ok (s1, u1)) :
    s1.blocks.map (·.index_block_hash) = s.blocks.map (·.index_block_hash)
    ∧ s1.txs.length = s.txs.length
    ∧ s1.stx_events.length = s.stx_events.length
    ∧ s1.ft_events.length = s.ft_events.length
    ∧ s1.nft_events.length = s.nft_events.length
    ∧ s1.contract_logs.length = s.contract_logs.length
    ∧ s1.smart_contracts.length = s.smart_contracts.length := by
  by_cases hgt : block.block_height > 1
  · rcases e : s.blocks.filter (reorgParentHit (block.block_height - 1) block.parent_index_block_hash) with _ | ⟨p, _ | ⟨b, t⟩⟩
    · rw [handleReorg_parent_nil hgt e] at h; cases h
    · rw [handleReorg_parent_single hgt e] at h
      by_cases hc : p.canonical = false ∧ block.block_height > tip
      · rw [if_pos hc] at h
        exact restore_ok_shape fuel s p.index_block_hash _ s1 u1 h
      · rw [if_neg hc] at h
        injection h with h
        injection h with h1 h2
        rw [← h1]
        exact ⟨rfl, rfl, rfl, rfl, rfl, rfl, rfl⟩
    · rw [handleReorg_parent_multi hgt e] at h; cases h
  · rw [handleReorg_low hgt] at h
    injection h with h
    injection h with h1 h2
    rw [← h1]
    exact ⟨rfl, rfl, rfl, rfl, rfl, rfl, rfl⟩


/-- Decomposition of a successful `update` transaction body into its
`handleReorg` result, committed state, and emitted notifications. -/
theorem updateBody_ok_parts {f : Nat} {s : DbState} {d : DataStoreUpdateData}
    {s3 : DbState} {ns0 : List DbNotification}
    (h : updateBodyFuel f s d = .ok (s3, ns0)) :
    ∃ s1 u1,
      handleReorg f s d.block (getChainTipHeight s).blockHeight = .ok (s1, u1)
      ∧ ns0 =
          .blockUpdate (if d.block.block_height ≤ (getChainTipHeight s).blockHeight then
              markDataNonCanonical d else d).block ::
            (if d.block.block_height ≤ (getChainTipHeight s).blockHeight then
              markDataNonCanonical d else d).txs.map (fun e => .txUpdate e.tx)
      ∧ s3 =
          (if (updateBlock s1.blocks (if d.block.block_height ≤ (getChainTipHeight s).blockHeight then
                markDataNonCanonical d else d).block).2 ≠ 0 then
            insertAllTxData
              { s1 with blocks := (updateBlock s1.blocks
                  (if d.block.block_height ≤ (getChainTipHeight s).blockHeight then
                    markDataNonCanonical d else d).block).1 }
              (if d.block.block_height ≤ (getChainTipHeight s).blockHeight then
                markDataNonCanonical d else d).txs
          else
            { s1 with blocks := (updateBlock s1.blocks
                (if d.block.block_height ≤ (getChainTipHeight s).blockHeight then
                  markDataNonCanonical d else d).block).1 }) := by
  simp only [updateBodyFuel] at h
  cases hr : handleReorg f s d.block (getChainTipHeight s).blockHeight with
  | error e => rw [hr] at h; cases h
  | ok w =>
    obtain ⟨s1, u1⟩ := w
    rw [hr] at h
    dsimp only at h
    injection h with h
    injection h with h1 h2
    exact ⟨s1, u1, rfl, h2.symm, h1.symm⟩


/-- C8 amended: on success the notifications are exactly the batch block
(first) followed by one per batch transaction in batch order, built from the
batch as adjusted by the tip comparison; on error nothing is emitted and the
state is kept (rollback). -/
theorem C8_notifications_amended (s : DbState) (d : DataStoreUpdateData)
    (s2 : DbState) (r : Except DbError (List DbNotification))
    (h : dbUpdate s d = (s2, r)) :
    (∀ ns, r = .ok ns →
      ns = .blockUpdate (if d.block.block_height ≤ (getChainTipHeight s).blockHeight then
              markDataNonCanonical d else d).block ::
            (if d.block.block_height ≤ (getChainTipHeight s).blockHeight then
              markDataNonCanonical d else d).txs.map (fun e => .txUpdate e.tx))
    ∧ (∀ e, r = .error e → s2 = s) := by
  unfold dbUpdate at h
  cases hb : updateBodyFuel (restoreFuelBound s) s d with
  | error e0 =>
    rw [hb] at h
    injection h with h1 h2
    constructor
    · intro ns hns; rw [← h2] at hns; cases hns
    · intro e he; exact h1.symm
  | ok v =>
    obtain ⟨s3, ns0⟩ := v
    rw [hb] at h
    injection h with h1 h2
    obtain ⟨s1, u1, hr, hns, hs3⟩ := updateBody_ok_parts hb
    constructor
    · intro ns hns2
      rw [← h2] at hns2
      injection hns2 with hns2
      rw [← hns2, hns]
    · intro e he; rw [← h2] at he; cases he

/-- C8 amended witness. -/
theorem C8_notifications_amended_witness :
    (∀ ns, (dbUpdate exSiblingState exSiblingData).2 = .ok ns →
      ns = .blockUpdate (if exSiblingData.block.block_height ≤ (getChainTipHeight exSiblingState).blockHeight then
              markDataNonCanonical exSiblingData else exSiblingData).block ::
            (if exSiblingData.block.block_height ≤ (getChainTipHeight exSiblingState).blockHeight then
              markDataNonCanonical exSiblingData else exSiblingData).txs.map (fun e => .txUpdate e.tx))
    ∧ (∀ e, (dbUpdate exSiblingState exSiblingData).2 = .error e →
        (dbUpdate exSiblingState exSiblingData).1 = exSiblingState) :=
  C8_notifications_amended exSiblingState exSiblingData
    (dbUpdate exSiblingState exSiblingData).1
    (dbUpdate exSiblingState exSiblingData).2 rfl

/-- C7 amended: a duplicate delivery (block already stored) inserts no rows
into any table, yet still emits one blockUpdate and one txUpdate per batch
transaction. -/
theorem C7_duplicate_delivery_amended (s : DbState) (d : DataStoreUpdateData)
    (s2 : DbState) (ns : List DbNotification)
    (hdup : ∃ b ∈ s.blocks, b.index_block_hash = d.block.index_block_hash)
    (hok : dbUpdate s d = (s2, .ok ns)) :
    s2.blocks.length = s.blocks.length
    ∧ s2.txs.length = s.txs.length
    ∧ s2.stx_events.length = s.stx_events.length
    ∧ s2.ft_events.length = s.ft_events.length
    ∧ s2.nft_events.length = s.nft_events.length
    ∧ s2.contract_logs.length = s.contract_logs.length
    ∧ s2.smart_contracts.length = s.smart_contracts.length
    ∧ ns.length = d.txs.length + 1 := by
  unfold dbUpdate at hok
  cases hb : updateBodyFuel (restoreFuelBound s) s d with
  | error e0 => rw [hb] at hok; injection hok with h1 h2; cases h2
  | ok v =>
    obtain ⟨s3, ns0⟩ := v
    rw [hb] at hok
    injection hok with h1 h2
    injection h2 with h2
    obtain ⟨s1, u1, hr, hns, hs3⟩ := updateBody_ok_parts hb
    have hshape := handleReorg_ok_shape hr
    -- the adjusted batch keeps the block hash and the transaction count
    have hhash : (if d.block.block_height ≤ (getChainTipHeight s).blockHeight then
        markDataNonCanonical d else d).block.index_block_hash = d.block.index_block_hash := by
      by_cases hc : d.block.block_height ≤ (getChainTipHeight s).blockHeight
      · rw [if_pos hc]; rfl
      · rw [if_neg hc]
    have htxlen : (if d.block.block_height ≤ (getChainTipHeight s).blockHeight then
        markDataNonCanonical d else d).txs.length = d.txs.length := by
      by_cases hc : d.block.block_height ≤ (getChainTipHeight s).blockHeight
      · rw [if_pos hc]; simp [markDataNonCanonical]
      · rw [if_neg hc]
    -- the duplicate block makes the insert a no-op
    have hany : s1.blocks.any (fun b => b.index_block_hash ==
        (if d.block.block_height ≤ (getChainTipHeight s).blockHeight then
          markDataNonCanonical d else d).block.index_block_hash) = true := by
      obtain ⟨b, hbm, hbh⟩ := hdup
      have : d.block.index_block_hash ∈ s1.blocks.map (·.index_block_hash) := by
        rw [hshape.1, List.mem_map]
        exact ⟨b, hbm, hbh⟩
      rw [List.mem_map] at this
      obtain ⟨b1, hb1m, hb1h⟩ := this
      rw [List.any_eq_true]
      refine ⟨b1, hb1m, ?_⟩
      rw [hhash, beq_iff_eq, hb1h]
    have hupd : updateBlock s1.blocks (if d.block.block_height ≤ (getChainTipHeight s).blockHeight then
        markDataNonCanonical d else d).block = (s1.blocks, 0) := by
      rw [updateBlock, if_pos hany]
    rw [hupd] at hs3
    rw [if_neg (by simp)] at hs3
    have hs2 : s2 = s1 := by rw [← h1, hs3]
    rw [hs2]
    refine ⟨?_, hshape.2.1, hshape.2.2.1, hshape.2.2.2.1, hshape.2.2.2.2.1,
      hshape.2.2.2.2.2.1, hshape.2.2.2.2.2.2, ?_⟩
    · have := congrArg List.length hshape.1
      simpa using this
    · rw [← h2, hns]
      simp [htxlen]

/-- C7 amended witness: redelivering the height-1 block of
`exCanonicalOnly` inserts nothing and emits two notifications. -/
theorem C7_duplicate_delivery_amended_witness :
    (dbUpdate exCanonicalOnly exDupData).1.blocks.length = exCanonicalOnly.blocks.length
    ∧ (dbUpdate exCanonicalOnly exDupData).1.txs.length = exCanonicalOnly.txs.length
    ∧ (dbUpdate exCanonicalOnly exDupData).1.stx_events.length = exCanonicalOnly.stx_events.length
    ∧ (dbUpdate exCanonicalOnly exDupData).1.ft_events.length = exCanonicalOnly.ft_events.length
    ∧ (dbUpdate exCanonicalOnly exDupData).1.nft_events.length = exCanonicalOnly.nft_events.length
    ∧ (dbUpdate exCanonicalOnly exDupData).1.contract_logs.length = exCanonicalOnly.contract_logs.length
    ∧ (dbUpdate exCanonicalOnly exDupData).1.smart_contracts.length = exCanonicalOnly.smart_contracts.length
    ∧ [DbNotification.blockUpdate { exDupData.block with canonical := false },
       DbNotification.txUpdate { (exDupData.txs.getD 0 {}).tx with canonical := false }].length
        = exDupData.txs.length + 1 :=
  C7_duplicate_delivery_amended exCanonicalOnly exDupData
    (dbUpdate exCanonicalOnly exDupData).1
    [DbNotification.blockUpdate { exDupData.block with canonical := false },
     DbNotification.txUpdate { (exDupData.txs.getD 0 {}).tx with canonical := false }]
    ⟨{ block_hash := "0xa", index_block_hash := "A",
       parent_index_block_hash := "G", block_height := 1, canonical := true },
      by decide, rfl⟩
    rfl


/-- C4 witness: ingesting the height-2 sibling O1 into the chain G-C1
appends only non-canonical rows. -/
theorem C4_sibling_stored_non_canonical_witness :
    (∃ r, (dbUpdate exSiblingState exSiblingData).1.blocks = exSiblingState.blocks ++ r ∧ ∀ b ∈ r, b.canonical = false)
    ∧ (∃ r, (dbUpdate exSiblingState exSiblingData).1.txs = exSiblingState.txs ++ r ∧ ∀ t ∈ r, t.canonical = false)
    ∧ (∃ r, (dbUpdate exSiblingState exSiblingData).1.stx_events = exSiblingState.stx_events ++ r ∧ ∀ v ∈ r, v.canonical = false)
    ∧ (∃ r, (dbUpdate exSiblingState exSiblingData).1.ft_events = exSiblingState.ft_events ++ r ∧ ∀ v ∈ r, v.canonical = false)
    ∧ (∃ r, (dbUpdate exSiblingState exSiblingData).1.nft_events = exSiblingState.nft_events ++ r ∧ ∀ v ∈ r, v.canonical = false)
    ∧ (∃ r, (dbUpdate exSiblingState exSiblingData).1.contract_logs = exSiblingState.contract_logs ++ r ∧ ∀ v ∈ r, v.canonical = false)
    ∧ (∃ r, (dbUpdate exSiblingState exSiblingData).1.smart_contracts = exSiblingState.smart_contracts ++ r ∧ ∀ v ∈ r, v.canonical = false) :=
  C4_sibling_stored_non_canonical exSiblingState exSiblingData
    (dbUpdate exSiblingState exSiblingData).1
    [DbNotification.blockUpdate { exSiblingData.block with canonical := false },
     DbNotification.txUpdate { (exSiblingData.txs.getD 0 {}).tx with canonical := false }]
    (by decide) rfl

end Sidecar

namespace Sidecar

/-- `restoreCore` preserves the height column of the block table. -/
theorem restoreCore_heights (s : DbState) (b0 : DbBlock) (hh : String) (u : UpdatedEntities) :
    (restoreCore s b0 hh u).1.blocks.map (·.block_height) = s.blocks.map (·.block_height) := by
  unfold restoreCore
  dsimp only
  rw [markEntities_blocks, (markFirstOrphan_shape _ _ _).1]
  dsimp only
  rw [List.map_map, List.map_map]
  apply List.map_congr_left
  intro b _
  simp only [Function.comp]
  by_cases h1 : restoreHit hh b = true
  · rw [if_pos h1]
    by_cases h2 : orphanHit b0.block_height hh { b with canonical := true } = true
    · rw [if_pos h2]
    · rw [if_neg h2]
  · rw [if_neg h1]
    by_cases h2 : orphanHit b0.block_height hh b = true
    · rw [if_pos h2]
    · rw [if_neg h2]

/-- The fuel bound of C10 is always at least one. -/
theorem restoreHeightFuel_pos (s : DbState) (hh : String) : 1 ≤ restoreHeightFuel s hh := by
  unfold restoreHeightFuel
  split <;> omega

/-- With fuel at least the starting block's height plus one, the restore
recursion never exhausts its fuel. -/
theorem restore_fuel_sufficient :
    ∀ (f : Nat) (s : DbState) (hh : String) (u : UpdatedEntities),
      (∀ b ∈ s.blocks, 0 ≤ b.block_height) →
      restoreHeightFuel s hh ≤ f →
      restoreOrphanedChainFuel f s hh u ≠ .error .outOfFuel := by
  intro f
  induction f with
  | zero =>
    intro s hh u hpos hbound
    have := restoreHeightFuel_pos s hh
    omega
  | succ f ih =>
    intro s hh u hpos hbound
    rcases hflt : s.blocks.filter (restoreHit hh) with _ | ⟨b0, _ | ⟨b1, t⟩⟩
    · rw [restore_succ_nil hflt]
      intro hx; injection hx with hx; cases hx
    · rw [restore_succ_single hflt]
      have hposc : ∀ b ∈ (restoreCore s b0 hh u).1.blocks, 0 ≤ b.block_height := by
        intro b hbm
        have hmem : b.block_height ∈ (restoreCore s b0 hh u).1.blocks.map (·.block_height) :=
          List.mem_map_of_mem _ hbm
        rw [restoreCore_heights] at hmem
        obtain ⟨a, ham, hah⟩ := List.mem_map.mp hmem
        rw [← hah]
        exact hpos a ham
      rcases hp : (restoreCore s b0 hh u).1.blocks.filter
          (restoreParentHit (b0.block_height - 1) b0.parent_index_block_hash) with _ | ⟨p, _ | ⟨p1, t1⟩⟩
      · intro hx; injection hx
      · -- facts about the parent row
        have hpmem : p ∈ (restoreCore s b0 hh u).1.blocks.filter
            (restoreParentHit (b0.block_height - 1) b0.parent_index_block_hash) := by
          rw [hp]; exact List.mem_cons_self _ _
        have hpin : p ∈ (restoreCore s b0 hh u).1.blocks := List.mem_of_mem_filter hpmem
        have hphit := List.of_mem_filter hpmem
        rw [restoreParentHit] at hphit
        simp only [Bool.and_eq_true, beq_iff_eq] at hphit
        obtain ⟨⟨hph, hpph⟩, hpc⟩ := hphit
        have hppos : 0 ≤ p.block_height := hposc p hpin
        have hb0pos : 1 ≤ b0.block_height := by omega
        -- the fuel bound at the top call
        have hbound0 : b0.block_height.toNat + 1 ≤ f + 1 := by
          unfold restoreHeightFuel at hbound
          rw [hflt] at hbound
          exact hbound
        apply ih _ _ _ hposc
        -- the bound for the recursive call
        unfold restoreHeightFuel
        rcases hflt2 : (restoreCore s b0 hh u).1.blocks.filter (restoreHit p.index_block_hash)
          with _ | ⟨q, _ | ⟨q1, t2⟩⟩
        · show (1 : Nat) ≤ f
          omega
        · have hpin2 : p ∈ (restoreCore s b0 hh u).1.blocks.filter (restoreHit p.index_block_hash) := by
            rw [List.mem_filter]
            refine ⟨hpin, ?_⟩
            rw [restoreHit]
            simp [hpc]
          rw [hflt2] at hpin2
          rw [List.mem_singleton] at hpin2
          show q.block_height.toNat + 1 ≤ f
          rw [← hpin2]
          omega
        · show (1 : Nat) ≤ f
          omega
      · intro hx; injection hx with hx; cases hx
    · rw [restore_succ_multi hflt]
      intro hx; injection hx with hx; cases hx

/-- C10: with fuel equal to the starting block's height plus one the
restoration terminates (fuel is never exhausted) on any store whose heights
are non-negative; the recursion depth is therefore at most the starting
block's height. -/
theorem C10_restore_terminates (s : DbState) (hh : String) (u : UpdatedEntities)
    (hpos : ∀ b ∈ s.blocks, 0 ≤ b.block_height) :
    restoreOrphanedChainFuel (restoreHeightFuel s hh) s hh u ≠ .error .outOfFuel :=
  restore_fuel_sufficient (restoreHeightFuel s hh) s hh u hpos le_rfl

/-- C10 witness: restoring O2 in `exRestoreState` with fuel 4 (its height 3
plus one) does not exhaust the fuel. -/
theorem C10_restore_terminates_witness :
    (∀ b ∈ exRestoreState.blocks, 0 ≤ b.block_height) ∧
      restoreOrphanedChainFuel (restoreHeightFuel exRestoreState "O2") exRestoreState "O2"
        UpdatedEntities.zero ≠ .error .outOfFuel :=
  ⟨by decide, C10_restore_terminates exRestoreState "O2" UpdatedEntities.zero (by decide)⟩

end Sidecar

namespace Sidecar

/-- Reduction of the claim-side restore on an empty lookup. -/
theorem spec_succ_nil {fuel : Nat} {s : DbState} {hh : String} {u : UpdatedEntities}
    (h : s.blocks.filter (restoreHit hh) = []) :
    restoreOrphanedChainSpecFuel (fuel + 1) s hh u = .error .orphanedBlockNotFound := by
  rw [restoreOrphanedChainSpecFuel, h]

/-- Reduction of the claim-side restore on a multiple lookup. -/
theorem spec_succ_multi {fuel : Nat} {s : DbState} {hh : String} {u : UpdatedEntities}
    {a b : DbBlock} {t : List DbBlock}
    (h : s.blocks.filter (restoreHit hh) = a :: b :: t) :
    restoreOrphanedChainSpecFuel (fuel + 1) s hh u = .error .multipleOrphanedBlocks := by
  rw [restoreOrphanedChainSpecFuel, h]

/-- Reduction of the claim-side restore on a unique lookup. -/
theorem spec_succ_single {fuel : Nat} {s : DbState} {hh : String} {u : UpdatedEntities}
    {b0 : DbBlock}
    (h : s.blocks.filter (restoreHit hh) = [b0]) :
    restoreOrphanedChainSpecFuel (fuel + 1) s hh u =
      match (restoreCore s b0 hh u).1.blocks.filter
          (restoreParentHit (b0.block_height - 1) b0.parent_index_block_hash) with
      | [] => .ok (restoreCore s b0 hh u)
      | p :: _ =>
        restoreOrphanedChainSpecFuel fuel (restoreCore s b0 hh u).1 p.index_block_hash
          { (restoreCore s b0 hh u).2 with blocks := (restoreCore s b0 hh u).2.blocks + 1 } := by
  rw [restoreOrphanedChainSpecFuel, h]

/-- In a list whose image under `f` has no duplicates, a filter whose
predicate pins the `f`-value down matches at most one element. -/
theorem nodup_filter_le_one {α β : Type _} (f : α → β) (l : List α)
    (hnd : (l.map f).Nodup) (p : α → Bool) (c : β)
    (hc : ∀ b, p b = true → f b = c) : (l.filter p).length ≤ 1 := by
  rcases e : l.filter p with _ | ⟨a, _ | ⟨b, t⟩⟩
  · simp
  · simp
  · exfalso
    have hsub : ((l.filter p).map f).Sublist (l.map f) :=
      List.Sublist.map f (List.filter_sublist l)
    have hnd2 : ((l.filter p).map f).Nodup := List.Nodup.sublist hsub hnd
    rw [e, List.map_cons, List.map_cons] at hnd2
    have ha : p a = true := List.of_mem_filter (e ▸ List.mem_cons_self a (b :: t))
    have hb : p b = true := List.of_mem_filter
      (e ▸ List.mem_cons_of_mem a (List.mem_cons_self b t))
    rw [hc a ha, hc b hb] at hnd2
    exact (List.nodup_cons.mp hnd2).1 (List.mem_cons_self c _)

/-- C1 amended: under the schema's uniqueness of `index_block_hash`, the
source `restoreOrphanedChain` computes exactly the steps of the amended
claim (rendered by `restoreOrphanedChainSpecFuel`). -/
theorem C1_restore_matches_spec :
    ∀ (fuel : Nat) (s : DbState) (hh : String) (u : UpdatedEntities),
      blockHashesNodup s →
      restoreOrphanedChainFuel fuel s hh u = restoreOrphanedChainSpecFuel fuel s hh u := by
  intro fuel
  induction fuel with
  | zero => intro s hh u hnd; rfl
  | succ f ih =>
    intro s hh u hnd
    rcases hflt : s.blocks.filter (restoreHit hh) with _ | ⟨b0, _ | ⟨b1, t⟩⟩
    · rw [restore_succ_nil hflt, spec_succ_nil hflt]
    · rw [restore_succ_single hflt, spec_succ_single hflt]
      have hndc : blockHashesNodup (restoreCore s b0 hh u).1 := by
        rw [blockHashesNodup, (restoreCore_shape s b0 hh u).1]
        exact hnd
      rcases hp : (restoreCore s b0 hh u).1.blocks.filter
          (restoreParentHit (b0.block_height - 1) b0.parent_index_block_hash) with _ | ⟨p, _ | ⟨p1, t1⟩⟩
      · rfl
      · exact ih (restoreCore s b0 hh u).1 p.index_block_hash _ hndc
      · exfalso
        have hndc2 : ((restoreCore s b0 hh u).1.blocks.map (·.index_block_hash)).Nodup := hndc
        have hle := nodup_filter_le_one (·.index_block_hash) (restoreCore s b0 hh u).1.blocks
          hndc2 (restoreParentHit (b0.block_height - 1) b0.parent_index_block_hash)
          b0.parent_index_block_hash
          (by
            intro b hb
            rw [restoreParentHit] at hb
            simp only [Bool.and_eq_true, beq_iff_eq] at hb
            exact hb.1.2)
        rw [hp] at hle
        simp at hle
    · rw [restore_succ_multi hflt, spec_succ_multi hflt]

/-- C1 amended witness: at `exRestoreState` (block hashes distinct) the two
renderings agree on restoring O2. -/
theorem C1_restore_matches_spec_witness :
    blockHashesNodup exRestoreState ∧
      restoreOrphanedChainFuel 4 exRestoreState "O2" UpdatedEntities.zero =
        restoreOrphanedChainSpecFuel 4 exRestoreState "O2" UpdatedEntities.zero :=
  ⟨by unfold blockHashesNodup; decide,
    C1_restore_matches_spec 4 exRestoreState "O2" UpdatedEntities.zero
      (by unfold blockHashesNodup; decide)⟩

end Sidecar

namespace Sidecar

/-- `restoreCore` rewrites the block table by the two canonical-flag maps. -/
theorem restoreCore_blocks_eq (s : DbState) (b0 : DbBlock) (hh : String) (u : UpdatedEntities) :
    (restoreCore s b0 hh u).1.blocks =
      (s.blocks.map (fun b => if restoreHit hh b then { b with canonical := true } else b)).map
        (fun b => if orphanHit b0.block_height hh b then { b with canonical := false } else b) := by
  unfold restoreCore
  dsimp only
  rw [markEntities_blocks, (markFirstOrphan_shape _ _ _).1]

/-- One pass of the flag maps of `restoreCore` relates every row to its
image under `RestoreRel`. -/
theorem restoreCore_rel (s : DbState) (b0 : DbBlock) (hh : String) (u : UpdatedEntities) :
    List.Forall₂ (RestoreRel hh b0.block_height) s.blocks (restoreCore s b0 hh u).1.blocks := by
  rw [restoreCore_blocks_eq, List.map_map]
  apply forall₂_map_self
  intro a _
  simp only [Function.comp]
  by_cases hrh : restoreHit hh a = true
  · have hx := hrh
    rw [restoreHit] at hx
    simp only [Bool.and_eq_true, beq_iff_eq] at hx
    have hor : ¬ orphanHit b0.block_height hh { a with canonical := true } = true := by
      rw [orphanHit]
      simp [hx.1]
    rw [if_pos hrh, if_neg hor]
    exact ⟨rfl, rfl, fun _ _ => rfl, fun hca _ => by rw [hx.2] at hca; cases hca⟩
  · rw [if_neg hrh]
    by_cases hor : orphanHit b0.block_height hh a = true
    · have hx := hor
      rw [orphanHit] at hx
      simp only [Bool.and_eq_true, beq_iff_eq, bne_iff_ne, ne_eq] at hx
      rw [if_pos hor]
      refine ⟨rfl, rfl, ?_, ?_⟩
      · intro hhash _
        exact absurd hhash hx.1.2
      · intro _ _
        exact Or.inr ⟨hx.1.1, hx.1.2⟩
    · rw [if_neg hor]
      refine ⟨rfl, rfl, ?_, ?_⟩
      · intro hhash hcan
        rw [restoreHit] at hrh
        simp [hhash, hcan] at hrh
      · intro hca hcf
        rw [hca] at hcf
        cases hcf


/-- A successful restore pass matched exactly one starting block `b0` and
relates old and new block tables pointwise by `RestoreRel`. -/
theorem restore_ok_rel :
    ∀ (fuel : Nat) (s : DbState) (hh : String) (u : UpdatedEntities)
      (s2 : DbState) (u2 : UpdatedEntities),
      restoreOrphanedChainFuel fuel s hh u = .ok (s2, u2) →
      ∃ b0, s.blocks.filter (restoreHit hh) = [b0]
        ∧ List.Forall₂ (RestoreRel hh b0.block_height) s.blocks s2.blocks := by
  intro fuel
  induction fuel with
  | zero => intro s hh u s2 u2 h; cases h
  | succ f ih =>
    intro s hh u s2 u2 h
    rcases hflt : s.blocks.filter (restoreHit hh) with _ | ⟨b0, _ | ⟨b1, t⟩⟩
    · rw [restore_succ_nil hflt] at h; cases h
    · rw [restore_succ_single hflt] at h
      rcases hp : (restoreCore s b0 hh u).1.blocks.filter
          (restoreParentHit (b0.block_height - 1) b0.parent_index_block_hash) with _ | ⟨p, _ | ⟨p1, t1⟩⟩
      · rw [hp] at h
        injection h with h
        injection h with h1 h2
        refine ⟨b0, rfl, ?_⟩
        rw [← h1]
        exact restoreCore_rel s b0 hh u
      · rw [hp] at h
        obtain ⟨b0', hflt', hrel'⟩ := ih (restoreCore s b0 hh u).1 p.index_block_hash _ s2 u2 h
        -- the recursion target is the parent row found at height b0.block_height - 1
        have hpmem : p ∈ (restoreCore s b0 hh u).1.blocks.filter
            (restoreParentHit (b0.block_height - 1) b0.parent_index_block_hash) := by
          rw [hp]; exact List.mem_cons_self _ _
        have hpin : p ∈ (restoreCore s b0 hh u).1.blocks := List.mem_of_mem_filter hpmem
        have hphit := List.of_mem_filter hpmem
        rw [restoreParentHit] at hphit
        simp only [Bool.and_eq_true, beq_iff_eq] at hphit
        obtain ⟨⟨hph, hpph⟩, hpc⟩ := hphit
        have hpin2 : p ∈ (restoreCore s b0 hh u).1.blocks.filter (restoreHit p.index_block_hash) := by
          rw [List.mem_filter]
          refine ⟨hpin, ?_⟩
          rw [restoreHit]
          simp [hpc]
        rw [hflt'] at hpin2
        rw [List.mem_singleton] at hpin2
        have hb0h : b0'.block_height = b0.block_height - 1 := by rw [← hpin2]; exact hph
        refine ⟨b0, rfl, ?_⟩
        -- compose the single pass with the recursive tail
        refine forall₂_comp_mem (restoreCore_rel s b0 hh u) (hb0h ▸ hrel') ?_
        intro a b c hamem hab hbc
        obtain ⟨hab1, hab2, hab3, hab4⟩ := hab
        obtain ⟨hbc1, hbc2, hbc3, hbc4⟩ := hbc
        refine ⟨hab1.trans hbc1, hab2.trans hbc2, ?_, ?_⟩
        · intro hhash hcan
          have hbcan : b.canonical = true := hab3 hhash hcan
          cases hccan : c.canonical with
          | true => rfl
          | false =>
            exfalso
            have hdis := hbc4 hbcan hccan
            -- a is the unique non-canonical block with hash hh, namely b0
            have hameme : a ∈ s.blocks.filter (restoreHit hh) := by
              rw [List.mem_filter]
              refine ⟨hamem, ?_⟩
              rw [restoreHit]
              simp [hhash, hcan]
            rw [hflt] at hameme
            rw [List.mem_singleton] at hameme
            rcases hdis with hlt | ⟨heq, _⟩
            · rw [← hab2, hameme] at hlt
              omega
            · rw [← hab2, hameme] at heq
              omega
        · intro hacan hccan
          cases hbcan : b.canonical with
          | false =>
            rcases hab4 hacan hbcan with hlt | ⟨heq, hne⟩
            · exact Or.inl hlt
            · exact Or.inr ⟨heq, hne⟩
          | true =>
            rcases hbc4 hbcan hccan with hlt | ⟨heq, _⟩
            · left
              rw [hab2]
              omega
            · left
              rw [hab2]
              omega
      · rw [hp] at h; cases h
    · rw [restore_succ_multi hflt] at h; cases h


/-- The committed blocks of a transaction body are the blocks produced by
the insert attempt. -/
theorem body_blocks_eq (s1 : DbState) (blk : DbBlock) (txs : List DataStoreTxEventData) :
    (if (updateBlock s1.blocks blk).2 ≠ 0 then
        insertAllTxData { s1 with blocks := (updateBlock s1.blocks blk).1 } txs
      else { s1 with blocks := (updateBlock s1.blocks blk).1 }).blocks
      = (updateBlock s1.blocks blk).1 := by
  by_cases hc : (updateBlock s1.blocks blk).2 ≠ 0
  · rw [if_pos hc, insertAll_blocks]
  · rw [if_neg hc]

/-- The insert attempt either conflicts or appends the one block row. -/
theorem updateBlock_cases (blocks : List DbBlock) (blk : DbBlock) :
    (updateBlock blocks blk).1 = blocks ∨ (updateBlock blocks blk).1 = blocks ++ [blk] := by
  unfold updateBlock
  by_cases hc : blocks.any (fun b => b.index_block_hash == blk.index_block_hash) = true
  · rw [if_pos hc]; exact Or.inl rfl
  · rw [if_neg hc]; exact Or.inr rfl

/-- When the incoming block row is already present, the whole insert stage
of the body is the identity. -/
theorem second_insert_noop (s1 : DbState) (blk : DbBlock) (txs : List DataStoreTxEventData)
    (hany : s1.blocks.any (fun b => b.index_block_hash == blk.index_block_hash) = true) :
    (if (updateBlock s1.blocks blk).2 ≠ 0 then
        insertAllTxData { s1 with blocks := (updateBlock s1.blocks blk).1 } txs
      else { s1 with blocks := (updateBlock s1.blocks blk).1 })
      = s1 := by
  rw [show updateBlock s1.blocks blk = (s1.blocks, 0) from by rw [updateBlock, if_pos hany]]
  rw [if_neg (by simp)]

/-- The adjusted batch block keeps the hash and height of the incoming
block. -/
theorem adjusted_block_key (s : DbState) (d : DataStoreUpdateData) :
    (if d.block.block_height ≤ (getChainTipHeight s).blockHeight then
        markDataNonCanonical d else d).block.index_block_hash = d.block.index_block_hash
    ∧ (if d.block.block_height ≤ (getChainTipHeight s).blockHeight then
        markDataNonCanonical d else d).block.block_height = d.block.block_height := by
  by_cases hc : d.block.block_height ≤ (getChainTipHeight s).blockHeight
  · rw [if_pos hc]; exact ⟨rfl, rfl⟩
  · rw [if_neg hc]; exact ⟨rfl, rfl⟩

/-- After a successful body, the incoming block's hash is present in the
committed block table. -/
theorem updateBody_ok_dup {f : Nat} {s : DbState} {d : DataStoreUpdateData}
    {s3 : DbState} {ns0 : List DbNotification}
    (h : updateBodyFuel f s d = .ok (s3, ns0)) :
    s3.blocks.any (fun b => b.index_block_hash == d.block.index_block_hash) = true := by
  obtain ⟨s1, u1, hr, hns, hs3⟩ := updateBody_ok_parts h
  have hkey := (adjusted_block_key s d).1
  have hblocks : s3.blocks = (updateBlock s1.blocks
      (if d.block.block_height ≤ (getChainTipHeight s).blockHeight then
        markDataNonCanonical d else d).block).1 := by
    rw [hs3]
    exact body_blocks_eq _ _ _
  by_cases hany : s1.blocks.any (fun b => b.index_block_hash ==
      (if d.block.block_height ≤ (getChainTipHeight s).blockHeight then
        markDataNonCanonical d else d).block.index_block_hash) = true
  · rw [show (updateBlock s1.blocks _).1 = s1.blocks from by
        rw [updateBlock, if_pos hany]] at hblocks
    rw [hblocks]
    rw [hkey] at hany
    exact hany
  · rw [show (updateBlock s1.blocks ((if d.block.block_height ≤ (getChainTipHeight s).blockHeight then
          markDataNonCanonical d else d).block)).1
        = s1.blocks ++ [(if d.block.block_height ≤ (getChainTipHeight s).blockHeight then
          markDataNonCanonical d else d).block] from by
      rw [updateBlock, if_neg hany]] at hblocks
    rw [hblocks, List.any_eq_true]
    refine ⟨_, List.mem_append_right _ (List.mem_singleton.mpr rfl), ?_⟩
    rw [beq_iff_eq]
    exact hkey

/-- Appending one non-canonical block at or below a positive chain tip does
not move the chain tip. -/
theorem tip_append {s sx : DbState} {b : DbBlock} (hb : sx.blocks = s.blocks ++ [b])
    (hbc : b.canonical = false) (hble : b.block_height ≤ (getChainTipHeight s).blockHeight)
    (hpos : 0 < (getChainTipHeight s).blockHeight) :
    getChainTipHeight sx = getChainTipHeight s := by
  unfold getChainTipHeight at *
  cases hm : (s.blocks.map (·.block_height)).max? with
  | none =>
    rw [hm] at hpos
    simp at hpos
  | some m =>
    rw [hm] at hpos hble
    dsimp only at hpos hble
    cases hhd : (s.blocks.filter (fun bb => bb.canonical && bb.block_height == m)).head? with
    | none =>
      rw [hhd] at hpos
      simp at hpos
    | some bt =>
      rw [hhd] at hpos hble
      dsimp only at hpos hble
      have hbt := List.of_mem_filter (mem_of_headq hhd)
      simp only [Bool.and_eq_true, beq_iff_eq] at hbt
      have hmax : (sx.blocks.map (·.block_height)).max? = some m := by
        rw [hb, List.map_append]
        simp only [List.map_cons, List.map_nil]
        rw [maxq_append _ _ _ hm]
        have : max m b.block_height = m := max_eq_left (by rw [← hbt.2]; exact hble)
        rw [this]
      rw [hmax]
      have hfilter : sx.blocks.filter (fun bb => bb.canonical && bb.block_height == m)
          = s.blocks.filter (fun bb => bb.canonical && bb.block_height == m) := by
        rw [hb, List.filter_append]
        have : [b].filter (fun bb => bb.canonical && bb.block_height == m) = [] := by
          simp [hbc]
        rw [this, List.append_nil]
      dsimp only
      rw [hfilter, hhd]


/-- `getChainTipHeight` reads only the block table. -/
theorem getChainTipHeight_blocks {s1 s2 : DbState} (h : s1.blocks = s2.blocks) :
    getChainTipHeight s1 = getChainTipHeight s2 := by
  unfold getChainTipHeight
  rw [h]

/-- Running the transaction body a second time over its own committed state
commits the same state again. -/
theorem update_second_pass (f1 f2 : Nat) (s : DbState) (d : DataStoreUpdateData)
    (s3 : DbState) (ns0 : List DbNotification)
    (h1 : updateBodyFuel f1 s d = .ok (s3, ns0))
    (s4 : DbState) (ns1 : List DbNotification)
    (h2 : updateBodyFuel f2 s3 d = .ok (s4, ns1)) : s4 = s3 := by
  obtain ⟨s1x, u1x, hr2, hns2, hs4⟩ := updateBody_ok_parts h2
  -- the second insert stage is a no-op because the block is already stored
  have hdup3 : s3.blocks.any (fun b => b.index_block_hash == d.block.index_block_hash) = true :=
    updateBody_ok_dup h1
  -- it therefore suffices to show the second handleReorg keeps the state
  suffices hkeep : s1x = s3 by
    rw [hs4, hkeep]
    apply second_insert_noop
    rw [(adjusted_block_key s3 d).1]
    exact hdup3
  by_cases hgt : d.block.block_height > 1
  case neg =>
    rw [handleReorg_low hgt] at hr2
    injection hr2 with hr2
    injection hr2 with hr2a hr2b
    exact hr2a.symm
  case pos =>
    obtain ⟨s1, u1, hr1, hns1x, hs3⟩ := updateBody_ok_parts h1
    have hblocks3 : s3.blocks = (updateBlock s1.blocks
        (if d.block.block_height ≤ (getChainTipHeight s).blockHeight then
          markDataNonCanonical d else d).block).1 := by
      rw [hs3]
      exact body_blocks_eq _ _ _
    have hpar2 : s3.blocks.filter (reorgParentHit (d.block.block_height - 1) d.block.parent_index_block_hash)
        = s1.blocks.filter (reorgParentHit (d.block.block_height - 1) d.block.parent_index_block_hash) := by
      rcases updateBlock_cases s1.blocks (if d.block.block_height ≤ (getChainTipHeight s).blockHeight then
          markDataNonCanonical d else d).block with hc | hc
      · rw [hblocks3, hc]
      · rw [hblocks3, hc, List.filter_append]
        have hone : [(if d.block.block_height ≤ (getChainTipHeight s).blockHeight then
            markDataNonCanonical d else d).block].filter
            (reorgParentHit (d.block.block_height - 1) d.block.parent_index_block_hash) = [] := by
          simp only [List.filter, reorgParentHit, (adjusted_block_key s d).2]
          have : (d.block.block_height == d.block.block_height - 1) = false := by
            rw [beq_eq_false_iff_ne]
            omega
          rw [this, Bool.false_and]
        rw [hone, List.append_nil]
    rcases e1 : s.blocks.filter (reorgParentHit (d.block.block_height - 1) d.block.parent_index_block_hash)
      with _ | ⟨p, _ | ⟨pp, tt⟩⟩
    · rw [handleReorg_parent_nil hgt e1] at hr1; cases hr1
    · -- facts about the unique parent row in the first store
      have hpmem : p ∈ s.blocks.filter (reorgParentHit (d.block.block_height - 1) d.block.parent_index_block_hash) := by
        rw [e1]; exact List.mem_cons_self _ _
      have hpin : p ∈ s.blocks := List.mem_of_mem_filter hpmem
      have hphit := List.of_mem_filter hpmem
      rw [reorgParentHit] at hphit
      simp only [Bool.and_eq_true, beq_iff_eq] at hphit
      obtain ⟨hph, hpph⟩ := hphit
      by_cases hpc : p.canonical = true
      · -- parent canonical: both passes are no-ops
        rw [handleReorg_parent_single hgt e1,
          if_neg (by rintro ⟨h1c, _⟩; rw [hpc] at h1c; cases h1c)] at hr1
        injection hr1 with hr1
        injection hr1 with hr1a hr1b
        have hs1 : s1 = s := hr1a.symm
        have he2 : s3.blocks.filter (reorgParentHit (d.block.block_height - 1) d.block.parent_index_block_hash) = [p] := by
          rw [hpar2, hs1, e1]
        rw [handleReorg_parent_single hgt he2,
          if_neg (by rintro ⟨h1c, _⟩; rw [hpc] at h1c; cases h1c)] at hr2
        injection hr2 with hr2
        injection hr2 with hr2a hr2b
        exact hr2a.symm
      · have hpcf : p.canonical = false := by
          revert hpc; cases p.canonical <;> simp
        by_cases htip : d.block.block_height > (getChainTipHeight s).blockHeight
        · -- the first pass restored the orphaned chain through p
          rw [handleReorg_parent_single hgt e1, if_pos ⟨hpcf, htip⟩] at hr1
          obtain ⟨b0, hflt0, hrel⟩ := restore_ok_rel f1 s p.index_block_hash _ s1 u1 hr1
          have hpflt : p ∈ s.blocks.filter (restoreHit p.index_block_hash) := by
            rw [List.mem_filter]
            refine ⟨hpin, ?_⟩
            rw [restoreHit]
            simp [hpcf]
          rw [hflt0, List.mem_singleton] at hpflt
          have hb0h : b0.block_height = d.block.block_height - 1 := by rw [← hpflt]; exact hph
          rcases e2 : s3.blocks.filter (reorgParentHit (d.block.block_height - 1) d.block.parent_index_block_hash)
            with _ | ⟨q, _ | ⟨qq, tq⟩⟩
          · rw [handleReorg_parent_nil hgt e2] at hr2; cases hr2
          · -- the second parent lookup finds a canonical row
            have hqmem : q ∈ s1.blocks.filter (reorgParentHit (d.block.block_height - 1) d.block.parent_index_block_hash) := by
              rw [← hpar2, e2]; exact List.mem_cons_self _ _
            have hqin : q ∈ s1.blocks := List.mem_of_mem_filter hqmem
            have hqhit := List.of_mem_filter hqmem
            rw [reorgParentHit] at hqhit
            simp only [Bool.and_eq_true, beq_iff_eq] at hqhit
            obtain ⟨hqh, hqph⟩ := hqhit
            obtain ⟨a, hamem, harel⟩ := forall₂_mem_right hrel hqin
            obtain ⟨hak, hah, ha3, ha4⟩ := harel
            have haheight : a.block_height = d.block.block_height - 1 := by rw [hah]; exact hqh
            have hahash : a.index_block_hash = p.index_block_hash := by
              rw [hak, hqph, ← hpph]
            have hqc : q.canonical = true := by
              cases hac : a.canonical with
              | false => exact ha3 hahash hac
              | true =>
                cases hqcn : q.canonical with
                | true => rfl
                | false =>
                  exfalso
                  rcases ha4 hac hqcn with hlt | ⟨heq, hne⟩
                  · rw [haheight, hb0h] at hlt
                    omega
                  · exact hne hahash
            rw [handleReorg_parent_single hgt e2,
              if_neg (by rintro ⟨h1c, _⟩; rw [hqc] at h1c; cases h1c)] at hr2
            injection hr2 with hr2
            injection hr2 with hr2a hr2b
            exact hr2a.symm
          · rw [handleReorg_parent_multi hgt e2] at hr2; cases hr2
        · -- no restoration: the first pass kept the state, the tip is kept too
          rw [handleReorg_parent_single hgt e1, if_neg (by rintro ⟨_, hcc⟩; exact htip hcc)] at hr1
          injection hr1 with hr1
          injection hr1 with hr1a hr1b
          have hs1 : s1 = s := hr1a.symm
          have htip3 : getChainTipHeight s3 = getChainTipHeight s := by
            rcases updateBlock_cases s1.blocks (if d.block.block_height ≤ (getChainTipHeight s).blockHeight then
                markDataNonCanonical d else d).block with hc | hc
            · apply getChainTipHeight_blocks
              rw [hblocks3, hc, hs1]
            · have hAdj : (if d.block.block_height ≤ (getChainTipHeight s).blockHeight then
                  markDataNonCanonical d else d) = markDataNonCanonical d := by
                rw [if_pos (by omega)]
              rw [hAdj] at hc
              apply tip_append (b := (markDataNonCanonical d).block)
              · rw [hblocks3, hAdj, hc, hs1]
              · rfl
              · show (markDataNonCanonical d).block.block_height ≤ _
                have : (markDataNonCanonical d).block.block_height = d.block.block_height := rfl
                omega
              · omega
          have he2 : s3.blocks.filter (reorgParentHit (d.block.block_height - 1) d.block.parent_index_block_hash) = [p] := by
            rw [hpar2, hs1, e1]
          rw [handleReorg_parent_single hgt he2, htip3,
            if_neg (by rintro ⟨_, hcc⟩; exact htip hcc)] at hr2
          injection hr2 with hr2
          injection hr2 with hr2a hr2b
          exact hr2a.symm
    · rw [handleReorg_parent_multi hgt e1] at hr1; cases hr1


/-- C3: ingesting the same batch twice leaves the same final state as
ingesting it once; after a successful first ingestion the second block
insert conflicts and affects zero rows. -/
theorem C3_update_idempotent (s : DbState) (d : DataStoreUpdateData) :
    (dbUpdate (dbUpdate s d).1 d).1 = (dbUpdate s d).1
    ∧ (∀ ns, (dbUpdate s d).2 = .ok ns →
        (updateBlock (dbUpdate s d).1.blocks d.block).2 = 0) := by
  cases hb1 : updateBodyFuel (restoreFuelBound s) s d with
  | error e =>
    have hfst : dbUpdate s d = (s, .error e) := by unfold dbUpdate; rw [hb1]
    rw [hfst]
    dsimp only
    constructor
    · rw [hfst]
    · intro ns hns
      cases hns
  | ok v =>
    obtain ⟨s3, ns0⟩ := v
    have hfst : dbUpdate s d = (s3, .ok ns0) := by unfold dbUpdate; rw [hb1]
    rw [hfst]
    dsimp only
    constructor
    · cases hb2 : updateBodyFuel (restoreFuelBound s3) s3 d with
      | error e => unfold dbUpdate; rw [hb2]
      | ok w =>
        obtain ⟨s4, ns1⟩ := w
        unfold dbUpdate
        rw [hb2]
        dsimp only
        exact update_second_pass _ _ s d s3 ns0 hb1 s4 ns1 hb2
    · intro ns hns
      have hany := updateBody_ok_dup hb1
      rw [updateBlock, if_pos hany]

/-- C3 witness at the concrete sibling ingestion. -/
theorem C3_update_idempotent_witness :
    (dbUpdate (dbUpdate exSiblingState exSiblingData).1 exSiblingData).1
        = (dbUpdate exSiblingState exSiblingData).1
    ∧ (∀ ns, (dbUpdate exSiblingState exSiblingData).2 = .ok ns →
        (updateBlock (dbUpdate exSiblingState exSiblingData).1.blocks exSiblingData.block).2 = 0) :=
  C3_update_idempotent exSiblingState exSiblingData

end Sidecar
